import Mathlib

/-!
Verification of the tetrs Tetris engine (CasualX/tetrs).

This file gives a shallow embedding, in Lean, of the engine code in
`src/tetrs/src` (the `tetrs` crate: bit-packed playing field, SRS
rotation, game state machine, evaluation and the depth-first search bot)
and `src/core/src` (the `core` crate variant: its `Well` and the
brute-force `PlayI::best` bot), together with theorems settling the
frozen claims about the specification.

Machine integers are embedded as `Nat`/`Int` with explicit wrap-around
(`% 65536` for the 16-bit row masks).  `f64` scores are embedded as `ℚ`
(the weight constants are exact decimal literals in the source); the
IEEE value `NEG_INFINITY` is embedded as `⊥` in `WithBot ℚ`.  Panics are
embedded as `Option`/`Except` failures.  Loops whose termination is not
structural are given explicit fuel.
-/

namespace Tetrs

/-- The seven tetromino identities, from `src/tetrs/src/piece.rs`
(`pub enum Piece { O, I, S, Z, L, J, T }`). -/
inductive Piece where
  | O | I | S | Z | L | J | T
  deriving DecidableEq, Fintype

/-- Rotation state of a piece, from `src/tetrs/src/rot.rs`
(`pub enum Rot { Zero, Right, Two, Left }`).  The `core` crate calls
these `Zero`, `One`, `Two`, `Three`. -/
inductive Rot where
  | Zero | Right | Two | Left
  deriving DecidableEq

/-- Discriminant of a rotation (`rot as u8`). -/
def rotIdx : Rot → Nat
  | .Zero => 0
  | .Right => 1
  | .Two => 2
  | .Left => 3

/-- Clockwise rotation, `Rot::cw` (`(self as u8).wrapping_add(1) & 3`). -/
def Rot.cw : Rot → Rot
  | .Zero => .Right
  | .Right => .Two
  | .Two => .Left
  | .Left => .Zero

/-- Counter-clockwise rotation, `Rot::ccw`
(`(self as u8).wrapping_sub(1) & 3`). -/
def Rot.ccw : Rot → Rot
  | .Zero => .Left
  | .Right => .Zero
  | .Two => .Right
  | .Left => .Two

/-- An integer point, from `src/tetrs/src/pt.rs` (`struct Point { x: i8, y: i8 }`). -/
structure Point where
  x : Int
  y : Int
  deriving DecidableEq

/-- Pointwise addition, `impl ops::Add for Point`. -/
def Point.add (a b : Point) : Point := ⟨a.x + b.x, a.y + b.y⟩

/-- A 4x4 occupancy sprite, from `src/tetrs/src/piece.rs`
(`struct Sprite { pix: [u8; 4] }`); `pix k` is the mask of row `k`
of the sprite, bit `c` (low bits) being column `c` from the left. -/
structure Sprite where
  pix : Nat → Nat

/-- The static sprite table `DATA` of `src/tetrs/src/piece.rs`:
`pix piece rot k` is `piece.mesh().data[rot].pix[k]`, transcribed from
the `data!` rows (`b!(_X__) = 0b0010` and so on; rows out of range are 0). -/
def pixData : Piece → Rot → Nat → Nat
  | .O, _, 1 => 6
  | .O, _, 2 => 6
  | .I, .Zero, 1 => 15
  | .I, .Right, 0 => 4
  | .I, .Right, 1 => 4
  | .I, .Right, 2 => 4
  | .I, .Right, 3 => 4
  | .I, .Two, 2 => 15
  | .I, .Left, 0 => 2
  | .I, .Left, 1 => 2
  | .I, .Left, 2 => 2
  | .I, .Left, 3 => 2
  | .S, .Zero, 0 => 12
  | .S, .Zero, 1 => 6
  | .S, .Right, 0 => 4
  | .S, .Right, 1 => 12
  | .S, .Right, 2 => 8
  | .S, .Two, 1 => 12
  | .S, .Two, 2 => 6
  | .S, .Left, 0 => 2
  | .S, .Left, 1 => 6
  | .S, .Left, 2 => 4
  | .Z, .Zero, 0 => 6
  | .Z, .Zero, 1 => 12
  | .Z, .Right, 0 => 8
  | .Z, .Right, 1 => 12
  | .Z, .Right, 2 => 4
  | .Z, .Two, 1 => 6
  | .Z, .Two, 2 => 12
  | .Z, .Left, 0 => 4
  | .Z, .Left, 1 => 6
  | .Z, .Left, 2 => 2
  | .L, .Zero, 0 => 8
  | .L, .Zero, 1 => 14
  | .L, .Right, 0 => 4
  | .L, .Right, 1 => 4
  | .L, .Right, 2 => 12
  | .L, .Two, 1 => 14
  | .L, .Two, 2 => 2
  | .L, .Left, 0 => 6
  | .L, .Left, 1 => 4
  | .L, .Left, 2 => 4
  | .J, .Zero, 0 => 2
  | .J, .Zero, 1 => 14
  | .J, .Right, 0 => 12
  | .J, .Right, 1 => 4
  | .J, .Right, 2 => 4
  | .J, .Two, 1 => 14
  | .J, .Two, 2 => 8
  | .J, .Left, 0 => 4
  | .J, .Left, 1 => 4
  | .J, .Left, 2 => 6
  | .T, .Zero, 0 => 4
  | .T, .Zero, 1 => 14
  | .T, .Right, 0 => 4
  | .T, .Right, 1 => 12
  | .T, .Right, 2 => 4
  | .T, .Two, 1 => 14
  | .T, .Two, 2 => 4
  | .T, .Left, 0 => 4
  | .T, .Left, 1 => 6
  | .T, .Left, 2 => 4
  | _, _, _ => 0

/-- The sprite of a piece at a rotation (the `Mesh` lookup). -/
def sprite (p : Piece) (r : Rot) : Sprite := ⟨pixData p r⟩

/-- The active piece, from `src/tetrs/src/player.rs`
(`struct Player { piece, rot, pt }`). -/
structure Player where
  piece : Piece
  rot : Rot
  pt : Point
  deriving DecidableEq

/-- `Player::new`. -/
def Player.new (piece : Piece) (rot : Rot) (pt : Point) : Player := ⟨piece, rot, pt⟩

/-- `Player::move_left`. -/
def Player.moveLeft (p : Player) : Player := ⟨p.piece, p.rot, ⟨p.pt.x - 1, p.pt.y⟩⟩

/-- `Player::move_right`. -/
def Player.moveRight (p : Player) : Player := ⟨p.piece, p.rot, ⟨p.pt.x + 1, p.pt.y⟩⟩

/-- `Player::move_down`. -/
def Player.moveDown (p : Player) : Player := ⟨p.piece, p.rot, ⟨p.pt.x, p.pt.y - 1⟩⟩

/-- `Player::rotate_cw`. -/
def Player.rotateCw (p : Player) : Player := ⟨p.piece, p.rot.cw, p.pt⟩

/-- `Player::rotate_ccw`. -/
def Player.rotateCcw (p : Player) : Player := ⟨p.piece, p.rot.ccw, p.pt⟩

/-- Modelled from the spec: `Player::sprite` (used by `srs.rs` and the
bot, exported from the crate but its definition is not in `src/`;
"Sprite: the 4x4 occupancy bitmap for a piece at a specific rotation",
i.e. the static `(identity, rotation)` table lookup). -/
def Player.sprite (p : Player) : Sprite := Tetrs.sprite p.piece p.rot

/-- Bitwise complement on 16 bits (`!x` on a `u16`). -/
def compl16 (n : Nat) : Nat := n ^^^ 65535

/-- 16-bit rotate right, `u16::rotate_right` (the shift amount is taken
mod 16). -/
def rotr16 (v : Nat) (r : Nat) : Nat :=
  ((v >>> (r % 16)) ||| (v <<< (16 - r % 16))) % 65536

/-- The playing field, from `src/tetrs/src/well.rs`
(`struct Well { width: i8, height: i8, field: [Line; 23] }` with
`Line = u16`).  `field i` is row `i`, row 0 at the bottom; each row
holds its columns in the high bits, column `c` from the left at bit
`15 - c`.  The backing array has `MAX_HEIGHT = 23` rows; indices at and
beyond 23 are not part of the array. -/
structure Well where
  width : Int
  height : Int
  field : Nat → Nat

/-- `MAX_WIDTH` of the tetrs crate. -/
def MAX_WIDTH : Nat := 12

/-- `MAX_HEIGHT` of the tetrs crate. -/
def MAX_HEIGHT : Nat := 23

/-- `Well::new`: the two `assert!` bounds checks are embedded as `none`
(panic); on success the field array is all zeroes. -/
def Well.new (width height : Int) : Option Well :=
  if 4 ≤ width ∧ width ≤ 12 ∧ 4 ≤ height ∧ height ≤ 23 then
    some ⟨width, height, fun _ => 0⟩
  else
    none

/-- `Well::line_mask`: all `width` columns set
(`!((1 << (16 - width)) - 1)`). -/
def Well.lineMask (w : Well) : Nat :=
  compl16 ((1 <<< (16 - w.width.toNat)) - 1)

/-- `Well::render`: each sprite row mask as a `u16` rotated right by
`x + 4` (the `i8 → u32` cast wraps mod `2^32`, and `2^32` is a multiple
of 16, so the rotate amount is `(x + 4) mod 16`). -/
def render (s : Sprite) (x : Int) : Nat → Nat :=
  fun y => rotr16 (s.pix y) ((x + 4).emod 16).toNat

/-- The row loop of `Well::test`, one iteration per sprite row `y`:
out the side of a wall, below the floor, or overlapping the field. -/
def Well.testLoop (w : Well) (spr : Nat → Nat) (pt : Point) : List Nat → Bool
  | [] => false
  | y :: ys =>
    if spr y &&& compl16 w.lineMask ≠ 0 then true
    else if pt.y - y < 0 then
      (if spr y ≠ 0 then true else w.testLoop spr pt ys)
    else if pt.y - y < w.height then
      (if spr y &&& w.field (pt.y - y).toNat ≠ 0 then true else w.testLoop spr pt ys)
    else w.testLoop spr pt ys

/-- `Well::test`: whether the sprite placed at `pt` collides with the
well (`true` = illegal). -/
def Well.test (w : Well) (s : Sprite) (pt : Point) : Bool :=
  if pt.x ≤ -4 ∨ w.width ≤ pt.x ∨ pt.y < 0 then true
  else if w.height + 4 ≤ pt.y then false
  else w.testLoop (render s pt.x) pt [0, 1, 2, 3]

/-- One row of `Well::etch`: OR the rendered sprite row into the field,
clipped to `[0, height)`. -/
def Well.etchRow (w : Well) (spr : Nat → Nat) (pt : Point) (y : Nat) : Well :=
  if 0 ≤ pt.y - y ∧ pt.y - y < w.height then
    ⟨w.width, w.height, fun i =>
      if i = (pt.y - y).toNat then w.field i ||| spr y else w.field i⟩
  else w

/-- `Well::etch`: OR the rendered sprite into the board rows. -/
def Well.etch (w : Well) (s : Sprite) (pt : Point) : Well :=
  [0, 1, 2, 3].foldl (fun acc y => acc.etchRow (render s pt.x) pt y) w

/-- `Well::wall_kick`: the first offset whose target passes `test`. -/
def Well.wallKick (w : Well) (s : Sprite) (kicks : List Point) (pt : Point) :
    Option Point :=
  (kicks.map (fun off => pt.add off)).find? (fun q => w.test s q = false)

/-- `Well::remove_line`: rows above `row` shift down inside the backing
array (`field[i] = field[i+1]` for `i` in `row..22`; entry 22 is left as
it was).  Returns the new well and the removed line. -/
def Well.removeLine (w : Well) (row : Int) : Well × Nat :=
  (⟨w.width, w.height, fun i =>
      if row.toNat ≤ i ∧ i < 22 then w.field (i + 1) else w.field i⟩,
   w.field row.toNat)

/-- `Well::insert_line`: rows `row..height-2` shift up, `row` gets the
new line; returns the new well and the old top row (`field[height-1]`,
read before the shift). -/
def Well.insertLine (w : Well) (row : Int) (line : Nat) : Well × Nat :=
  (⟨w.width, w.height, fun i =>
      if i = row.toNat then line
      else if row.toNat < i ∧ i ≤ (w.height - 1).toNat then w.field (i - 1)
      else w.field i⟩,
   w.field (w.height - 1).toNat)

end Tetrs

namespace Core

/-- The playing field of the `core` crate, from `src/core/src/well.rs`
(`struct Well { width: i16, height: i16, field: [Line; 22] }`,
`Line = u16`, `MAX_WIDTH = 16`, `MAX_HEIGHT = 22`).  Row 0 is the bottom
row and bit `c` (low bits) of a row is column `c` from the left. -/
structure Well where
  width : Int
  height : Int
  field : Nat → Nat

/-- `core::Well::new`: the two `assert!` bounds checks
(width in `[4, 16]`, height in `[4, 22]`) embedded as `none` on panic. -/
def Well.new (width height : Int) : Option Well :=
  if 4 ≤ width ∧ width ≤ 16 ∧ 4 ≤ height ∧ height ≤ 22 then
    some ⟨width, height, fun _ => 0⟩
  else
    none

end Core

/-! ## C2.  `Well::new` bounds -/

/-- C2 counterexample: the claim says `Well::new(width, height)` fails
iff `width ∉ [4,16]` or `height ∉ [4,23]`, so `new(16, 23)` should
succeed; but both the tetrs variant (width capped at 12) and the core
variant (height capped at 22) panic on `(16, 23)`. -/
theorem C2_new_16_23_panics_in_both_variants :
    (4 ≤ (16:Int) ∧ (16:Int) ≤ 16 ∧ 4 ≤ (23:Int) ∧ (23:Int) ≤ 23) ∧
      Tetrs.Well.new 16 23 = none ∧ Core.Well.new 16 23 = none := by
  refine ⟨by norm_num, ?_, ?_⟩ <;> simp [Tetrs.Well.new, Core.Well.new]

/-- C2 (amended): `tetrs::Well::new(width, height)` panics iff
`width ∉ [4,12]` or `height ∉ [4,23]`, `core::Well::new` panics iff
`width ∉ [4,16]` or `height ∉ [4,22]`, and each, when it succeeds,
returns the well of the requested dimensions with every row empty. -/
theorem C2_new_bounds_and_empty (width height : Int) :
    (Tetrs.Well.new width height = none ↔
      (width < 4 ∨ 12 < width ∨ height < 4 ∨ 23 < height)) ∧
    (Core.Well.new width height = none ↔
      (width < 4 ∨ 16 < width ∨ height < 4 ∨ 22 < height)) ∧
    (4 ≤ width → width ≤ 12 → 4 ≤ height → height ≤ 23 →
      Tetrs.Well.new width height = some ⟨width, height, fun _ => 0⟩) ∧
    (4 ≤ width → width ≤ 16 → 4 ≤ height → height ≤ 22 →
      Core.Well.new width height = some ⟨width, height, fun _ => 0⟩) := by
  refine ⟨?_, ?_, ?_, ?_⟩
  · simp only [Tetrs.Well.new]
    split <;> rename_i h
    · simp only [reduceCtorEq, false_iff]; omega
    · simp only [true_iff]; omega
  · simp only [Core.Well.new]
    split <;> rename_i h
    · simp only [reduceCtorEq, false_iff]; omega
    · simp only [true_iff]; omega
  · intro h1 h2 h3 h4
    simp only [Tetrs.Well.new]
    rw [if_pos ⟨h1, h2, h3, h4⟩]
  · intro h1 h2 h3 h4
    simp only [Core.Well.new]
    rw [if_pos ⟨h1, h2, h3, h4⟩]

/-- C2 witness: `new(10, 6)` succeeds in both variants and every row of
the result is empty (the field function is constantly zero). -/
theorem C2_new_bounds_and_empty_witness :
    Tetrs.Well.new 10 6 = some ⟨10, 6, fun _ => 0⟩ ∧
      Core.Well.new 10 6 = some ⟨10, 6, fun _ => 0⟩ :=
  ⟨(C2_new_bounds_and_empty 10 6).2.2.1 (by norm_num) (by norm_num) (by norm_num)
      (by norm_num),
   (C2_new_bounds_and_empty 10 6).2.2.2 (by norm_num) (by norm_num) (by norm_num)
      (by norm_num)⟩

/-! ## C1.  `Well::test` decides legality by the ordered rules -/

namespace Tetrs

/-- The per-row collision condition of `Well::test` for sprite row `y`:
a set bit outside the column range, a non-empty row below the floor, or
overlap with the stored board row. -/
def clauseProp (w : Well) (spr : Nat → Nat) (pt : Point) (y : Nat) : Prop :=
  spr y &&& compl16 w.lineMask ≠ 0 ∨
  (pt.y - y < 0 ∧ spr y ≠ 0) ∨
  (0 ≤ pt.y - y ∧ pt.y - y < w.height ∧ spr y &&& w.field (pt.y - y).toNat ≠ 0)

instance (w : Well) (spr : Nat → Nat) (pt : Point) (y : Nat) :
    Decidable (clauseProp w spr pt y) := by
  unfold clauseProp; infer_instance

theorem testLoop_cons (w : Well) (spr : Nat → Nat) (pt : Point) (y : Nat)
    (ys : List Nat) :
    w.testLoop spr pt (y :: ys) =
      (decide (clauseProp w spr pt y) || w.testLoop spr pt ys) := by
  simp only [Well.testLoop]
  by_cases h1 : spr y &&& compl16 w.lineMask ≠ 0
  · simp [clauseProp, h1]
  · by_cases h2 : pt.y - y < 0
    · by_cases h3 : spr y ≠ 0
      · simp [clauseProp, h1, h2, h3]
      · have h2' : ¬((0:Int) ≤ pt.y - y) := by omega
        simp [clauseProp, h1, h2, h3, h2']
    · have h2' : (y:Int) ≤ pt.y := by omega
      by_cases h4 : pt.y - y < w.height
      · by_cases h5 : spr y &&& w.field (pt.y - y).toNat ≠ 0
        · simp [clauseProp, h1, h2, h4, h5, h2']
        · simp [clauseProp, h1, h2, h4, h5, h2']
      · simp [clauseProp, h1, h2, h4, h2']

theorem testLoop_eq_or (w : Well) (spr : Nat → Nat) (pt : Point) :
    w.testLoop spr pt [0, 1, 2, 3] =
      (decide (clauseProp w spr pt 0) || decide (clauseProp w spr pt 1) ||
        decide (clauseProp w spr pt 2) || decide (clauseProp w spr pt 3)) := by
  rw [testLoop_cons, testLoop_cons, testLoop_cons, testLoop_cons]
  simp only [Well.testLoop, Bool.or_false]
  rw [Bool.or_assoc, Bool.or_assoc]

/-- Spec-side reading of claim C1: legality decided by the ordered
rules (a) out of bounds left/right/below, (b) trivially legal above the
field, (c) otherwise SOME of the four rendered sprite rows violates one
of the three per-row conditions. -/
def testSpecProp (w : Well) (s : Sprite) (pt : Point) : Prop :=
  if pt.x ≤ -4 ∨ w.width ≤ pt.x ∨ pt.y < 0 then True
  else if w.height + 4 ≤ pt.y then False
  else ∃ y : Nat, y < 4 ∧ clauseProp w (render s pt.x) pt y

end Tetrs

/-- C1: `Well::test` returns `true` exactly as described by the ordered
rules of the specification (out-of-bounds early reject, above-the-field
early accept, otherwise some rendered sprite row sticks out of the
column range, is non-empty below row 0, or overlaps a stored row). -/
theorem C1_test_matches_spec (w : Tetrs.Well) (s : Tetrs.Sprite) (pt : Tetrs.Point) :
    w.test s pt = true ↔ Tetrs.testSpecProp w s pt := by
  unfold Tetrs.Well.test Tetrs.testSpecProp
  split
  · simp
  · split
    · simp
    · rw [Tetrs.testLoop_eq_or]
      simp only [Bool.or_eq_true, decide_eq_true_eq]
      constructor
      · rintro (((h | h) | h) | h)
        · exact ⟨0, by norm_num, h⟩
        · exact ⟨1, by norm_num, h⟩
        · exact ⟨2, by norm_num, h⟩
        · exact ⟨3, by norm_num, h⟩
      · rintro ⟨y, hy, hC⟩
        interval_cases y
        · exact Or.inl (Or.inl (Or.inl hC))
        · exact Or.inl (Or.inl (Or.inr hC))
        · exact Or.inl (Or.inr hC)
        · exact Or.inr hC

/-! ## C4.  Etching a legally placed sprite makes the position illegal -/

namespace Tetrs

theorem rotr16_zero (r : Nat) : rotr16 0 r = 0 := by
  simp [rotr16]

theorem rotr16_ne_zero (v r : Nat) (hv : v ≠ 0) (hlt : v < 65536) :
    rotr16 v r ≠ 0 := by
  unfold rotr16
  set q := r % 16 with hq
  have hq16 : q < 16 := Nat.mod_lt _ (by norm_num)
  by_cases ha : v >>> q = 0
  · have hvlt : v < 2 ^ q := by
      rw [Nat.shiftRight_eq_div_pow] at ha
      exact (Nat.div_eq_zero_iff (Nat.pos_pow_of_pos q (by norm_num))).mp ha
    have hble : v <<< (16 - q) < 65536 := by
      rw [Nat.shiftLeft_eq]
      calc v * 2 ^ (16 - q) < 2 ^ q * 2 ^ (16 - q) :=
            (Nat.mul_lt_mul_right (Nat.pos_pow_of_pos _ (by norm_num))).mpr hvlt
        _ = 2 ^ 16 := by rw [← pow_add]; congr 1; omega
        _ = 65536 := by norm_num
    rw [ha, Nat.zero_or, Nat.mod_eq_of_lt hble, Nat.shiftLeft_eq]
    have hvpos : 0 < v := Nat.pos_of_ne_zero hv
    positivity
  · obtain ⟨i, hi⟩ := Nat.ne_zero_implies_bit_true ha
    have hilt : i < 16 := by
      by_contra hge
      have hlow : v >>> q < 2 ^ i := by
        calc v >>> q ≤ v := by
              rw [Nat.shiftRight_eq_div_pow]; exact Nat.div_le_self v _
          _ < 65536 := hlt
          _ ≤ 2 ^ i := by
              have h16i : (16:Nat) ≤ i := by omega
              calc (65536:Nat) = 2 ^ 16 := by norm_num
                _ ≤ 2 ^ i := Nat.pow_le_pow_right (by norm_num) h16i
      rw [Nat.testBit_lt_two_pow hlow] at hi
      exact Bool.false_ne_true hi
    intro h0
    have h65536 : (65536:Nat) = 2 ^ 16 := by norm_num
    rw [h65536] at h0
    have hcon := congrArg (fun n => Nat.testBit n i) h0
    simp only [Nat.testBit_mod_two_pow, Nat.testBit_or, hi, Nat.zero_testBit,
      Bool.true_or, Bool.and_true, decide_eq_false_iff_not] at hcon
    exact hcon hilt

theorem render_ne_zero (s : Sprite) (x : Int) (k : Nat)
    (hpk : s.pix k ≠ 0) (hlt : s.pix k < 65536) : render s x k ≠ 0 :=
  rotr16_ne_zero _ _ hpk hlt

theorem etchRow_width (w : Well) (spr : Nat → Nat) (pt : Point) (y : Nat) :
    (w.etchRow spr pt y).width = w.width := by
  unfold Well.etchRow; split <;> rfl

theorem etchRow_height (w : Well) (spr : Nat → Nat) (pt : Point) (y : Nat) :
    (w.etchRow spr pt y).height = w.height := by
  unfold Well.etchRow; split <;> rfl

theorem etch_width (w : Well) (s : Sprite) (pt : Point) :
    (w.etch s pt).width = w.width := by
  simp [Well.etch, List.foldl, etchRow_width]

theorem etch_height (w : Well) (s : Sprite) (pt : Point) :
    (w.etch s pt).height = w.height := by
  simp [Well.etch, List.foldl, etchRow_height]

theorem etchRow_field_or (w : Well) (spr : Nat → Nat) (pt : Point) (y i : Nat) :
    ∃ m, (w.etchRow spr pt y).field i = w.field i ||| m := by
  unfold Well.etchRow
  split
  · by_cases hi : i = (pt.y - y).toNat
    · refine ⟨spr y, ?_⟩
      show (if i = (pt.y - y).toNat then w.field i ||| spr y else w.field i) = _
      rw [if_pos hi]
    · refine ⟨0, ?_⟩
      show (if i = (pt.y - y).toNat then w.field i ||| spr y else w.field i) = _
      rw [if_neg hi, Nat.or_zero]
  · exact ⟨0, (Nat.or_zero _).symm⟩

theorem etchRow_field_self (w : Well) (spr : Nat → Nat) (pt : Point) (k : Nat)
    (h0 : 0 ≤ pt.y - k) (h1 : pt.y - k < w.height) :
    (w.etchRow spr pt k).field (pt.y - k).toNat =
      w.field (pt.y - k).toNat ||| spr k := by
  unfold Well.etchRow
  rw [if_pos ⟨h0, h1⟩]
  show (if (pt.y - k).toNat = (pt.y - k).toNat then _ else _) = _
  rw [if_pos rfl]

theorem testBit_or_chain_left (x y : Nat) (i : Nat)
    (h : Nat.testBit x i = true) : Nat.testBit (x ||| y) i = true := by
  simp [Nat.testBit_or, h]

theorem testBit_or_chain_right (x y : Nat) (i : Nat)
    (h : Nat.testBit y i = true) : Nat.testBit (x ||| y) i = true := by
  simp [Nat.testBit_or, h]

theorem foldl_etchRow_preserves_testBit (spr : Nat → Nat) (pt : Point)
    (j i : Nat) :
    ∀ (l : List Nat) (w : Well), Nat.testBit (w.field j) i = true →
      Nat.testBit ((l.foldl (fun acc y => acc.etchRow spr pt y) w).field j) i =
        true := by
  intro l
  induction l with
  | nil => intro w h; exact h
  | cons y ys ih =>
    intro w h
    rw [List.foldl_cons]
    apply ih
    obtain ⟨m, hm⟩ := etchRow_field_or w spr pt y j
    rw [hm]
    exact testBit_or_chain_left _ _ _ h

theorem foldl_etchRow_testBit (spr : Nat → Nat) (pt : Point) (k : Nat)
    (h0 : 0 ≤ pt.y - k) (i : Nat) (hbit : Nat.testBit (spr k) i = true) :
    ∀ (l : List Nat) (w : Well), k ∈ l → pt.y - k < w.height →
      Nat.testBit
        ((l.foldl (fun acc y => acc.etchRow spr pt y) w).field (pt.y - k).toNat)
        i = true := by
  intro l
  induction l with
  | nil => intro w hk _; cases hk
  | cons y ys ih =>
    intro w hk h1
    rw [List.foldl_cons]
    rcases List.mem_cons.mp hk with rfl | hmem
    · apply foldl_etchRow_preserves_testBit
      rw [etchRow_field_self w spr pt k h0 h1]
      exact testBit_or_chain_right _ _ _ hbit
    · exact ih (w.etchRow spr pt y) hmem (by rw [etchRow_height]; exact h1)

/-- The field row hit by sprite row `k` after `etch` contains every bit
of the rendered sprite row `k`. -/
theorem etch_field_testBit (w : Well) (s : Sprite) (pt : Point) (k : Nat)
    (hk : k < 4) (h0 : 0 ≤ pt.y - k) (h1 : pt.y - k < w.height) (i : Nat)
    (hbit : Nat.testBit (render s pt.x k) i = true) :
    Nat.testBit ((w.etch s pt).field (pt.y - k).toNat) i = true := by
  have hkmem : k ∈ [0, 1, 2, 3] := by interval_cases k <;> simp
  exact foldl_etchRow_testBit (render s pt.x) pt k h0 i hbit [0, 1, 2, 3] w hkmem h1

end Tetrs

/-- C4 counterexample: the claim quantifies over every legal point, but
at a point fully above the well (`test` legal by the early accept,
`pt.y ≥ height + 4`) `etch` writes nothing, so re-testing the same
sprite at the same point is still legal.  Here: empty 10x6 well, the O
piece sprite at `(3, 10)`. -/
theorem C4_counterexample :
    Tetrs.Well.test ⟨10, 6, fun _ => 0⟩
        (Tetrs.sprite Tetrs.Piece.O Tetrs.Rot.Zero) ⟨3, 10⟩ = false ∧
      Tetrs.Well.test
        (Tetrs.Well.etch ⟨10, 6, fun _ => 0⟩
          (Tetrs.sprite Tetrs.Piece.O Tetrs.Rot.Zero) ⟨3, 10⟩)
        (Tetrs.sprite Tetrs.Piece.O Tetrs.Rot.Zero) ⟨3, 10⟩ = false := by
  constructor <;> decide

/-- C4 (amended): if `test(S, P)` is legal and some non-empty sprite row
of S lands at a board row index below `height` (so the placement is not
entirely above the visible field), then after `etch(S, P)` the call
`test(S, P)` on the updated well reports a collision.  The sprite rows
are 8-bit values as in the source (`pix: [u8; 4]`). -/
theorem C4_etch_then_test_illegal (w : Tetrs.Well) (s : Tetrs.Sprite)
    (pt : Tetrs.Point)
    (hpix : ∀ k, k < 4 → s.pix k < 256)
    (hfree : w.test s pt = false)
    (hrow : ∃ k, k < 4 ∧ s.pix k ≠ 0 ∧ pt.y - k < w.height) :
    (w.etch s pt).test s pt = true := by
  obtain ⟨k, hk4, hpk, hklt⟩ := hrow
  have hrend : Tetrs.render s pt.x k ≠ 0 :=
    Tetrs.render_ne_zero s pt.x k hpk (lt_trans (hpix k hk4) (by norm_num))
  unfold Tetrs.Well.test at hfree
  by_cases hA : pt.x ≤ -4 ∨ w.width ≤ pt.x ∨ pt.y < 0
  · rw [if_pos hA] at hfree
    cases hfree
  by_cases hB : w.height + 4 ≤ pt.y
  · exfalso
    omega
  rw [if_neg hA, if_neg hB, Tetrs.testLoop_eq_or] at hfree
  simp only [Bool.or_eq_false_iff, decide_eq_false_iff_not] at hfree
  obtain ⟨⟨⟨hc0, hc1⟩, hc2⟩, hc3⟩ := hfree
  have hck : ¬ Tetrs.clauseProp w (Tetrs.render s pt.x) pt k := by
    interval_cases k <;> assumption
  have h0 : 0 ≤ pt.y - k := by
    by_contra hneg
    exact hck (Or.inr (Or.inl ⟨by omega, hrend⟩))
  have hclause : Tetrs.clauseProp (w.etch s pt) (Tetrs.render s pt.x) pt k := by
    refine Or.inr (Or.inr ⟨h0, ?_, ?_⟩)
    · rw [Tetrs.etch_height]
      exact hklt
    · obtain ⟨i, hi⟩ := Nat.ne_zero_implies_bit_true hrend
      intro hzero
      have hcast := congrArg (fun n => Nat.testBit n i) hzero
      simp only [Nat.testBit_and, Nat.zero_testBit, hi, Bool.true_and] at hcast
      rw [Tetrs.etch_field_testBit w s pt k hk4 h0 hklt i hi] at hcast
      cases hcast
  unfold Tetrs.Well.test
  rw [Tetrs.etch_width, Tetrs.etch_height, if_neg hA, if_neg hB,
    Tetrs.testLoop_eq_or]
  interval_cases k <;> simp [hclause]

/-- C4 witness: empty 10x6 well, O sprite legally placed at `(3, 2)`
inside the field; after etching, the same test reports a collision. -/
theorem C4_etch_then_test_illegal_witness :
    Tetrs.Well.test
        (Tetrs.Well.etch ⟨10, 6, fun _ => 0⟩
          (Tetrs.sprite Tetrs.Piece.O Tetrs.Rot.Zero) ⟨3, 2⟩)
        (Tetrs.sprite Tetrs.Piece.O Tetrs.Rot.Zero) ⟨3, 2⟩ = true :=
  C4_etch_then_test_illegal ⟨10, 6, fun _ => 0⟩ _ _ (by decide) (by decide)
    ⟨1, by decide⟩

/-! ## C10.  `insert_line(r, remove_line(r))` round-trip -/

/-- C10 counterexample: at the maximal height 23 the representation
invariant says nothing about the top array row (index 22), and
`remove_line` never clears it; on a height-23 well whose top row is
non-empty, `insert_line(0, remove_line(0))` returns that top row
(61440), not 0, even though `0 ∈ [0, height)` and the invariant holds. -/
theorem C10_counterexample :
    ((0:Int) ≤ 0 ∧ (0:Int) < (23:Int) ∧ (23:Int) ≤ 23) ∧
      (∀ i : Nat, 23 ≤ i →
        ((⟨4, 23, fun i => if i = 22 then 61440 else 0⟩ : Tetrs.Well).field i = 0)) ∧
      (((⟨4, 23, fun i => if i = 22 then 61440 else 0⟩ : Tetrs.Well).removeLine
            0).1.insertLine 0
          ((⟨4, 23, fun i => if i = 22 then 61440 else 0⟩ : Tetrs.Well).removeLine
            0).2).2 = 61440 := by
  refine ⟨by norm_num, fun i hi => ?_, by decide⟩
  show (if i = 22 then 61440 else 0) = 0
  rw [if_neg (by omega)]

/-- C10 (amended): on a well whose rows at index at least `height` are
all zero, for `0 ≤ r < height ≤ 23`, `insert_line(r, remove_line(r))`
restores the field exactly; the `insert_line` call returns 0 whenever
`height < 23`, and returns the original top array row `field[22]` when
`height = 23`. -/
theorem C10_remove_insert_roundtrip (w : Tetrs.Well) (r : Int)
    (hr0 : 0 ≤ r) (hrh : r < w.height) (hh : w.height ≤ 23)
    (hinv : ∀ i : Nat, w.height.toNat ≤ i → w.field i = 0) :
    (∀ i, ((w.removeLine r).1.insertLine r (w.removeLine r).2).1.field i =
      w.field i) ∧
    (w.height < 23 →
      ((w.removeLine r).1.insertLine r (w.removeLine r).2).2 = 0) ∧
    (w.height = 23 →
      ((w.removeLine r).1.insertLine r (w.removeLine r).2).2 = w.field 22) := by
  refine ⟨?_, ?_, ?_⟩
  · intro i
    simp only [Tetrs.Well.removeLine, Tetrs.Well.insertLine]
    by_cases h1 : i = r.toNat
    · rw [if_pos h1, h1]
    · rw [if_neg h1]
      by_cases h2 : r.toNat < i ∧ i ≤ (w.height - 1).toNat
      · rw [if_pos h2, if_pos (by omega)]
        congr 1
        omega
      · rw [if_neg h2]
        by_cases h3 : r.toNat ≤ i ∧ i < 22
        · rw [if_pos h3]
          have hi1 : w.height.toNat ≤ i := by omega
          have hi2 : w.height.toNat ≤ i + 1 := by omega
          rw [hinv _ hi1, hinv _ hi2]
        · rw [if_neg h3]
  · intro hlt
    simp only [Tetrs.Well.removeLine, Tetrs.Well.insertLine]
    rw [if_pos (by omega)]
    have hstep : (w.height - 1).toNat + 1 = w.height.toNat := by omega
    rw [hstep]
    exact hinv _ (le_refl _)
  · intro heq
    simp only [Tetrs.Well.removeLine, Tetrs.Well.insertLine]
    rw [if_neg (by omega)]
    congr 1
    omega

/-- C10 witness: on an all-empty 10x6 well at row 1, the round trip
restores row 3 (trivially) and the `insert_line` call returns 0. -/
theorem C10_remove_insert_roundtrip_witness :
    ((((⟨10, 6, fun _ => 0⟩ : Tetrs.Well).removeLine 1).1.insertLine 1
        ((⟨10, 6, fun _ => 0⟩ : Tetrs.Well).removeLine 1).2).1.field 3 =
      (⟨10, 6, fun _ => 0⟩ : Tetrs.Well).field 3) ∧
    ((((⟨10, 6, fun _ => 0⟩ : Tetrs.Well).removeLine 1).1.insertLine 1
        ((⟨10, 6, fun _ => 0⟩ : Tetrs.Well).removeLine 1).2).2 = 0) :=
  ⟨(C10_remove_insert_roundtrip ⟨10, 6, fun _ => 0⟩ 1 (by norm_num) (by norm_num)
      (by norm_num) (fun i hi => rfl)).1 3,
   (C10_remove_insert_roundtrip ⟨10, 6, fun _ => 0⟩ 1 (by norm_num) (by norm_num)
      (by norm_num) (fun i hi => rfl)).2.1 (by norm_num)⟩

/-! ## Game state machine and evaluation (tetrs crate) -/

namespace Tetrs

/-- Modelled from the spec: `test_player` (exported by `lib.rs` from
`state.rs`, whose definition is not in `src/`; per the spec the state
machine and the bot hit-test the active piece by testing its sprite at
its position against the well, which is also how `well.rs`'s commented
test drives it). -/
def testPlayer (w : Well) (p : Player) : Bool := w.test p.sprite p.pt

/-- `etch_player` from `src/tetrs/src/bot.rs`: etch the player's sprite
at the player's position. -/
def etchPlayer (w : Well) (p : Player) : Well := w.etch p.sprite p.pt

/-- The game state, from `src/tetrs/src/state.rs`
(`struct State { player: Option<Player>, well: Well, scene: Scene }`;
the `scene`'s tile contents are presentation-only and are not
modelled, but the slice bounds check of `Scene::remove_line`, which
can abort `clear_lines`, is — see `sceneRemoveLinePanics`). -/
structure State where
  player : Option Player
  well : Well

/-- The piece-dependent vertical spawn offset of `State::spawn`
(`(piece != Piece::O && piece != Piece::I) as i8`). -/
def spawnOff (p : Piece) : Int :=
  if p ≠ Piece.O ∧ p ≠ Piece.I then 1 else 0

/-- The player installed by `State::spawn`: rotation `Zero`, horizontally
centered at `width/2 - 2`, vertically at `height` minus the offset. -/
def spawnPlayer (w : Well) (p : Piece) : Player :=
  ⟨p, Rot.Zero, ⟨w.width / 2 - 2, w.height - spawnOff p⟩⟩

/-- `State::spawn`: installs the spawn player unconditionally and
returns whether it collides with the well. -/
def State.spawn (s : State) (p : Piece) : Bool × State :=
  (testPlayer s.well (spawnPlayer s.well p), ⟨some (spawnPlayer s.well p), s.well⟩)

/-- `State::is_game_over`: true iff either of the top two rows of the
well has any bit set. -/
def State.isGameOver (s : State) : Bool :=
  decide (s.well.field (s.well.height - 1).toNat ≠ 0) ||
    decide (s.well.field (s.well.height - 2).toNat ≠ 0)

/-- Outcome of the `clear_lines` loop under fuel: the loop exited
normally, it panicked inside `Scene::remove_line`, or the fuel ran out
with the loop still running. -/
inductive ClearStatus where
  | finished | panicked | running
  deriving DecidableEq

/-- The slice bounds check `let _ = self.tiles[row as usize..top]` of
`Scene::remove_line` (`src/tetrs/src/scene.rs`, with
`top = (self.height - 2) as usize` over the backing array of length
`MAX_HEIGHT = 23`): the slice panics iff the start exceeds the end or
the end exceeds the array length.  The scene's tile contents are
presentation-only and are not modelled; this check is, because a panic
aborts `clear_lines` (the row passed in by `clear_lines` is its
non-negative loop counter). -/
def sceneRemoveLinePanics (height row : Int) : Bool :=
  decide ((height - 2).toNat < row.toNat ∨ 23 < (height - 2).toNat)

/-- The `while` loop of `State::clear_lines`, with fuel: on a full row
the callback fires (`f(row + lines_cleared)`), `Well::remove_line`
runs, and then `Scene::remove_line` runs its slice bounds check — a
panic aborts the loop.  Returns the well, the list of row indices
passed to the callback, and the outcome. -/
def clearLinesLoop (mask : Nat) :
    Nat → Well → Int → Int → List Int → Well × List Int × ClearStatus
  | 0, w, _, _, acc => (w, acc, ClearStatus.running)
  | fuel + 1, w, row, cleared, acc =>
    if row < w.height then
      if w.field row.toNat = mask then
        if sceneRemoveLinePanics w.height row then
          ((w.removeLine row).1, acc ++ [row + cleared], ClearStatus.panicked)
        else
          clearLinesLoop mask fuel (w.removeLine row).1 row (cleared + 1)
            (acc ++ [row + cleared])
      else
        clearLinesLoop mask fuel w (row + 1) cleared acc
    else (w, acc, ClearStatus.finished)

/-- `State::clear_lines`: scans rows bottom to top removing full rows,
reporting `row + lines_cleared` to the callback before each removal
(the i8 callback index is embedded as an unbounded integer). -/
def State.clearLines (s : State) (fuel : Nat) :
    State × List Int × ClearStatus :=
  let r := clearLinesLoop s.well.lineMask fuel s.well 0 0 []
  (⟨s.player, r.1⟩, r.2.1, r.2.2)

/-- Population count (`u16::count_ones`). -/
def countOnes : Nat → Nat
  | 0 => 0
  | n + 1 => (n + 1) % 2 + countOnes ((n + 1) / 2)

/-- `Well::count_blocks`: total number of set bits over the rows below
`height`. -/
def Well.countBlocks (w : Well) : Nat :=
  (List.range w.height.toNat).foldl (fun acc r => acc + countOnes (w.field r)) 0

/-- `ColRange` of `src/tetrs/src/well.rs`: a half-open range of single-bit
column masks, from `start` (inclusive) down to `stop` (exclusive; the
source field is named `end`). -/
structure ColRange where
  start : Nat
  stop : Nat

/-- `ColRange::mask`: all bits of the range set (`(start - end) << 1`). -/
def ColRange.mask (r : ColRange) : Nat := (r.start - r.stop) <<< 1

/-- `Well::col_range`: from bit 15 down to bit `16 - width - 1`. -/
def Well.colRange (w : Well) : ColRange :=
  ⟨1 <<< 15, 1 <<< (16 - w.width.toNat - 1)⟩

/-- The `k`-th column bit yielded by the `ColRange` iterator
(`col_range().nth(k)`, defined when `k < width`). -/
def colNth (k : Nat) : Nat := (1 <<< 15) >>> k

/-- The list of bits yielded by iterating a `ColRange` (`start` halving
down to `stop`, exclusive); 17 steps of fuel cover every 16-bit range. -/
def rangeBits : Nat → Nat → Nat → List Nat
  | 0, _, _ => []
  | fuel + 1, start, stop =>
    if start = stop then [] else start :: rangeBits fuel (start >>> 1) stop

/-- The left-edge search loop of `_flood_fill`
(`while left < range.start && field[y] & (left << 1) == 0 { left <<= 1 }`). -/
def findLeft (line : Nat) (rstart : Nat) : Nat → Nat → Nat
  | 0, left => left
  | fuel + 1, left =>
    if left < rstart ∧ line &&& (left <<< 1) = 0 then
      findLeft line rstart fuel (left <<< 1)
    else left

/-- The right-edge search loop of `_flood_fill`
(`while right > range.end && field[y] & right == 0 { right >>= 1 }`). -/
def findRight (line : Nat) (rstop : Nat) : Nat → Nat → Nat
  | 0, right => right
  | fuel + 1, right =>
    if rstop < right ∧ line &&& right = 0 then
      findRight line rstop fuel (right >>> 1)
    else right

/-- Overwrite one row of the field. -/
def Well.setRow (w : Well) (y : Nat) (v : Nat) : Well :=
  ⟨w.width, w.height, fun i => if i = y then v else w.field i⟩

/-- The `for it in range` recursion loops of `_flood_fill`: apply the
given fill (a partially applied `floodFill`) to each still-empty cell of
row `y` among the listed column bits, threading the well through. -/
def floodSeq (g : Well → Nat → Nat → Well) : Well → Nat → List Nat → Well
  | w, _, [] => w
  | w, y, it :: its =>
    floodSeq g (if w.field y &&& it = 0 then g w y it else w) y its

/-- `Well::_flood_fill`, with fuel: compute the contiguous empty
interval of row `y` around column bit `x`, mark it, then recurse into
the empty cells of the row below (tail case: the whole interval below is
empty) and, after that, of the row above. -/
def floodFill : Nat → Well → Nat → Nat → Well
  | 0, w, _, _ => w
  | fuel + 1, w, y, x =>
    let r0 := w.colRange
    let range : ColRange :=
      if w.field y ≠ 0 then
        ⟨findLeft (w.field y) r0.start 17 x, findRight (w.field y) r0.stop 17 x⟩
      else r0
    let mask := range.mask
    let w1 := w.setRow y (w.field y ||| mask)
    if 1 ≤ y ∧ w1.field (y - 1) &&& mask = 0 then
      floodFill fuel w1 (y - 1) range.start
    else
      let w2 :=
        if 1 ≤ y then
          floodSeq (fun a b c => floodFill fuel a b c) w1 (y - 1)
            (rangeBits 17 range.start range.stop)
        else w1
      if y + 1 < w2.height.toNat ∧ w2.field (y + 1) &&& mask ≠ mask then
        floodSeq (fun a b c => floodFill fuel a b c) w2 (y + 1)
          (rangeBits 17 range.start range.stop)
      else w2

/-- `Well::flood_fill`: seed conversion (`col_range().nth(seed.x)`) and
recursive fill, with fuel 512 (the fill visits each of the at most
16 x 23 cells at most once). -/
def Well.floodFillFrom (w : Well) (seed : Point) : Well :=
  floodFill 512 w seed.y.toNat (colNth seed.x.toNat)

/-- `Well::count_holes`: flood-fill a copy from the top-center seed and
count the cells not reached (`width*height - count_blocks`). -/
def Well.countHoles (w : Well) : Int :=
  let flooded := w.floodFillFrom ⟨w.width / 2, w.height - 1⟩
  w.width * w.height - (flooded.countBlocks : Int)

/-- Accumulator of `Weights::crunch`: per-column heights, incremental
holes and stacks (arrays in the source), the completed-line count, and
the running non-full-row counter `height`. -/
structure CrunchSt where
  heights : Nat → Int
  holes : Nat → Int
  stackCnt : Nat → Int
  lines : Int
  hc : Int

/-- Pointwise array update. -/
def updAt (f : Nat → Int) (c : Nat) (v : Int) : Nat → Int :=
  fun j => if j = c then v else f j

/-- The per-column body of `Weights::crunch`: on a filled cell,
accumulate holes, record the column height, and bump the stack counter
if the column already has holes. -/
def crunchCol (line : Nat) (st : CrunchSt) (col : Nat) : CrunchSt :=
  if (line >>> col) &&& 1 = 1 then
    let holes2 := updAt st.holes col (st.holes col + (st.hc - st.heights col - 1))
    let heights2 := updAt st.heights col st.hc
    let stacks2 := updAt st.stackCnt col
      (st.stackCnt col + (if holes2 col ≠ 0 then 1 else 0))
    ⟨heights2, holes2, stacks2, st.lines, st.hc⟩
  else st

/-- The per-row body of `Weights::crunch`: full rows are counted as
cleared lines and skipped, other rows bump the height counter and are
scanned column-wise. -/
def crunchRow (width : Nat) (lineMask : Nat) (st : CrunchSt) (line : Nat) :
    CrunchSt :=
  if line = lineMask then ⟨st.heights, st.holes, st.stackCnt, st.lines + 1, st.hc⟩
  else
    (List.range width).foldl (crunchCol line)
      ⟨st.heights, st.holes, st.stackCnt, st.lines, st.hc + 1⟩

/-- `Weights::crunch` of `src/tetrs/src/bot.rs`: the feature tuple
`(height_sum, heights_max, lines, holes_sum, caves_sum, bumpiness,
stacks_sum)`. -/
def Well.crunch (w : Well) : Int × Int × Int × Int × Int × Int × Int :=
  let width := w.width.toNat
  let st0 : CrunchSt := ⟨fun _ => 0, fun _ => 0, fun _ => 0, 0, 0⟩
  let st := (List.range w.height.toNat).foldl
    (fun acc r => crunchRow width w.lineMask acc (w.field r)) st0
  let cols := List.range width
  let holesSum := w.countHoles
  let heightSum := cols.foldl (fun a c => a + st.heights c) 0
  let heightsMax := cols.foldl (fun a c => max a (st.heights c)) (st.heights 0)
  let cavesSum := cols.foldl (fun a c => a + st.holes c) 0 - holesSum
  let stacksSum := cols.foldl (fun a c => a + st.stackCnt c) 0
  let bumpiness := (List.range (width - 1)).foldl
    (fun a c => a + |st.heights c - st.heights (c + 1)|) 0
  (heightSum, heightsMax, st.lines, holesSum, cavesSum, bumpiness, stacksSum)

/-- The evaluation weights of `src/tetrs/src/bot.rs` (`struct Weights`),
with the `f64` factors embedded as rationals. -/
structure Weights where
  agg_height_f : ℚ
  max_height_f : ℚ
  complete_lines_f : ℚ
  holes_f : ℚ
  caves_f : ℚ
  bumpiness_f : ℚ
  stacking_f : ℚ

/-- `Weights::default`, the tuned constants (exact decimal literals in
the source). -/
def Weights.default : Weights :=
  ⟨-510066/1000000, -510066/1000000, 760666/1000000, -35663/100000, 0,
    -184483/1000000, -1/2⟩

/-- `Weights::eval`: negative infinity (embedded as `⊥`) if either of
the top two rows is occupied, otherwise the weighted feature sum. -/
def Weights.eval (wts : Weights) (w : Well) : WithBot ℚ :=
  if w.field (w.height - 1).toNat ≠ 0 ∨ w.field (w.height - 2).toNat ≠ 0 then ⊥
  else
    let c := w.crunch
    ((wts.agg_height_f * (c.1 : ℚ) + wts.max_height_f * (c.2.1 : ℚ) +
      wts.complete_lines_f * (c.2.2.1 : ℚ) + wts.holes_f * (c.2.2.2.1 : ℚ) +
      wts.caves_f * (c.2.2.2.2.1 : ℚ) + wts.bumpiness_f * (c.2.2.2.2.2.1 : ℚ) +
      wts.stacking_f * (c.2.2.2.2.2.2 : ℚ) : ℚ) : WithBot ℚ)

end Tetrs

/-! ## C5.  `Weights::eval` is negative infinity on stack-out wells -/

/-- C5: for every well in which one of the top two rows has a set bit
(the `is_game_over` condition), `Weights::eval` returns negative
infinity (embedded as `⊥`), for every choice of weights. -/
theorem C5_eval_neg_infinity_on_stackout (wts : Tetrs.Weights)
    (s : Tetrs.State) (h : s.isGameOver = true) :
    wts.eval s.well = ⊥ := by
  have hcond : s.well.field (s.well.height - 1).toNat ≠ 0 ∨
      s.well.field (s.well.height - 2).toNat ≠ 0 := by
    simpa [Tetrs.State.isGameOver] using h
  unfold Tetrs.Weights.eval
  rw [if_pos hcond]

/-- C5 witness: a 4x4 well with a full top row is game over and
evaluates to `⊥` under the default weights. -/
theorem C5_eval_neg_infinity_on_stackout_witness :
    Tetrs.Weights.default.eval (⟨4, 4, fun i => if i = 3 then 61440 else 0⟩ :
      Tetrs.Well) = ⊥ :=
  C5_eval_neg_infinity_on_stackout Tetrs.Weights.default
    ⟨none, ⟨4, 4, fun i => if i = 3 then 61440 else 0⟩⟩ (by decide)

/-! ## C7.  `clear_lines` at maximal height -/

theorem clearLinesLoop_stuck (fuel : Nat) :
    ∀ (w : Tetrs.Well) (cleared : Int) (acc : List Int),
      w.height = 23 → w.field 21 = 61440 → w.field 22 = 61440 →
      (Tetrs.clearLinesLoop 61440 fuel w 21 cleared acc).2.2 =
        Tetrs.ClearStatus.running := by
  induction fuel with
  | zero => intro w c acc h1 h2 h3; rfl
  | succ n ih =>
    intro w c acc h1 h2 h3
    unfold Tetrs.clearLinesLoop
    rw [if_pos (by rw [h1]; norm_num), if_pos (by exact h2),
      if_neg (by rw [h1]; decide)]
    apply ih
    · exact h1
    · show (if (21:Int).toNat ≤ 21 ∧ 21 < 22 then w.field 22 else w.field 21) =
        61440
      rw [if_pos (by omega)]
      exact h3
    · show (if (21:Int).toNat ≤ 22 ∧ 22 < 22 then w.field 23 else w.field 22) =
        61440
      rw [if_neg (by omega)]
      exact h3

/-- C7: on wells that touch the top of the 23-entry backing array,
`clear_lines` does not remove and report each full row exactly once as
the claim states.
(a) On a height-23 well whose top row (index 22) is full, the callback
fires once (index 22), `Well::remove_line` runs, and then
`Scene::remove_line`'s slice bounds check `tiles[22..21]` panics.
(b) On a height-23 well whose rows 21 and 22 are both full, the loop
never terminates: `remove_line(21)` copies the never-cleared backing
row `field[22]` back into row 21 (so row 21 is full again) while
`Scene::remove_line(21)`'s slice `tiles[21..21]` passes its check, so
the callback fires over and over with indices 21, 22, 23, 24, ...
growing past the original row numbering (in the model's unbounded
integers; in an actual run the i8 index additionally overflows once
it passes 127).  Concretely, with fuel 25 the callback has already
fired four times and for every fuel bound the loop at row 21 is still
running — it neither finishes nor panics. -/
theorem C7_clear_lines_diverges :
    (((⟨none, ⟨4, 23, fun i => if i = 22 then 61440 else 0⟩⟩ :
        Tetrs.State).clearLines 24).2.1 = [22] ∧
      ((⟨none, ⟨4, 23, fun i => if i = 22 then 61440 else 0⟩⟩ :
        Tetrs.State).clearLines 24).2.2 = Tetrs.ClearStatus.panicked) ∧
    (((⟨none, ⟨4, 23, fun i => if 21 ≤ i ∧ i ≤ 22 then 61440 else 0⟩⟩ :
        Tetrs.State).clearLines 25).2.1 = [21, 22, 23, 24] ∧
      (∀ (fuel : Nat) (cleared : Int) (acc : List Int),
        (Tetrs.clearLinesLoop 61440 fuel
          ⟨4, 23, fun i => if 21 ≤ i ∧ i ≤ 22 then 61440 else 0⟩ 21 cleared
          acc).2.2 = Tetrs.ClearStatus.running)) := by
  refine ⟨⟨?_, ?_⟩, ?_,
    fun fuel cleared acc => clearLinesLoop_stuck fuel _ cleared acc rfl rfl rfl⟩
  · set_option maxRecDepth 10000 in decide
  · set_option maxRecDepth 10000 in decide
  · set_option maxRecDepth 10000 in decide

/-! ## C8.  `State::spawn` -/

namespace Tetrs

/-- The spawn x offset is inside the walls for every legal width
(finite check over widths 4..12). -/
theorem spawn_x_bounds :
    ∀ W ∈ Finset.Icc (4:Int) 12, 0 ≤ W / 2 - 2 ∧ W / 2 - 2 < W := by decide

/-- The spawn offset is 0 or 1. -/
theorem spawnOff_bounds : ∀ p : Piece, 0 ≤ spawnOff p ∧ spawnOff p ≤ 1 := by
  decide

/-- No spawn sprite row sticks out of the walls, for any legal width
(finite check over widths 4..12, the 7 pieces and the 4 sprite rows). -/
theorem spawn_wall_clause :
    ∀ W ∈ Finset.Icc (4:Int) 12, ∀ p : Piece, ∀ k ∈ Finset.range 4,
      render (sprite p Rot.Zero) (W / 2 - 2) k &&&
        compl16 (compl16 ((1 <<< (16 - W.toNat)) - 1)) = 0 := by decide

/-- Each non-empty spawn sprite row sits 1 or 2 rows below the spawn
point, so it lands on board row `height - 1` or `height - 2`. -/
theorem spawn_pix_row_bound :
    ∀ p : Piece, ∀ k ∈ Finset.range 4, pixData p Rot.Zero k ≠ 0 →
      1 ≤ (k : Int) + spawnOff p ∧ (k : Int) + spawnOff p ≤ 2 := by decide

/-- At the spawn position the per-row `test` condition is equivalent to
plain overlap with the stored board rows: the wall and floor conditions
cannot fire. -/
theorem spawn_clause_iff (wl : Well) (p : Piece) (k : Nat) (hk : k < 4)
    (hw1 : 4 ≤ wl.width) (hw2 : wl.width ≤ 12) (hh1 : 4 ≤ wl.height) :
    clauseProp wl (render (sprite p Rot.Zero) (wl.width / 2 - 2))
        ⟨wl.width / 2 - 2, wl.height - spawnOff p⟩ k ↔
      (0 ≤ wl.height - spawnOff p - k ∧
        wl.height - spawnOff p - k < wl.height ∧
        render (sprite p Rot.Zero) (wl.width / 2 - 2) k &&&
          wl.field (wl.height - spawnOff p - k).toNat ≠ 0) := by
  unfold clauseProp
  constructor
  · rintro (hwall | ⟨hneg, hrend⟩ | hov)
    · exfalso
      apply hwall
      have hwc := spawn_wall_clause wl.width (Finset.mem_Icc.mpr ⟨hw1, hw2⟩) p k
        (Finset.mem_range.mpr hk)
      simpa [Well.lineMask] using hwc
    · exfalso
      have hpix : pixData p Rot.Zero k ≠ 0 := by
        intro h0
        apply hrend
        simp [render, Tetrs.sprite, h0, rotr16_zero]
      have hb := spawn_pix_row_bound p k (Finset.mem_range.mpr hk) hpix
      have hoffb := spawnOff_bounds p
      simp only [Point] at hneg
      omega
    · exact hov
  · intro hov
    exact Or.inr (Or.inr hov)

end Tetrs

/-- C8: for every game state (well dimensions within the constructor
bounds) and every piece, `spawn` unconditionally installs a player with
rotation `Zero` at `x = width/2 - 2` and `y = height` for O and I
(`height - 1` for the other pieces), and returns `true` exactly when
some row of that spawn sprite overlaps the existing well content; the
player is installed regardless of the return value. -/
theorem C8_spawn_installs_and_reports_collision (s : Tetrs.State)
    (p : Tetrs.Piece)
    (hw1 : 4 ≤ s.well.width) (hw2 : s.well.width ≤ 12)
    (hh1 : 4 ≤ s.well.height) (hh2 : s.well.height ≤ 23) :
    ((s.spawn p).2.player = some (Tetrs.spawnPlayer s.well p) ∧
      (Tetrs.spawnPlayer s.well p).rot = Tetrs.Rot.Zero ∧
      (Tetrs.spawnPlayer s.well p).pt.x = s.well.width / 2 - 2 ∧
      (Tetrs.spawnPlayer s.well p).pt.y =
        (if p = Tetrs.Piece.O ∨ p = Tetrs.Piece.I then s.well.height
          else s.well.height - 1)) ∧
    ((s.spawn p).1 = true ↔
      ∃ k : Nat, k < 4 ∧
        0 ≤ s.well.height - Tetrs.spawnOff p - k ∧
        s.well.height - Tetrs.spawnOff p - k < s.well.height ∧
        Tetrs.render (Tetrs.sprite p Tetrs.Rot.Zero) (s.well.width / 2 - 2) k &&&
          s.well.field ((s.well.height - Tetrs.spawnOff p - k)).toNat ≠ 0) := by
  constructor
  · refine ⟨rfl, rfl, rfl, ?_⟩
    cases p <;> simp [Tetrs.spawnPlayer, Tetrs.spawnOff]
  · have hrw : (s.spawn p).1 =
        s.well.test (Tetrs.sprite p Tetrs.Rot.Zero)
          ⟨s.well.width / 2 - 2, s.well.height - Tetrs.spawnOff p⟩ := rfl
    rw [hrw]
    have hx := Tetrs.spawn_x_bounds s.well.width (Finset.mem_Icc.mpr ⟨hw1, hw2⟩)
    have hoffb := Tetrs.spawnOff_bounds p
    have hA : ¬(s.well.width / 2 - 2 ≤ -4 ∨
        s.well.width ≤ s.well.width / 2 - 2 ∨
        s.well.height - Tetrs.spawnOff p < 0) := by omega
    have hB : ¬(s.well.height + 4 ≤ s.well.height - Tetrs.spawnOff p) := by
      omega
    unfold Tetrs.Well.test
    rw [if_neg hA, if_neg hB, Tetrs.testLoop_eq_or]
    simp only [Bool.or_eq_true, decide_eq_true_eq]
    constructor
    · rintro (((h0 | h1) | h2) | h3)
      · exact ⟨0, by norm_num,
          (Tetrs.spawn_clause_iff s.well p 0 (by norm_num) hw1 hw2 hh1).mp h0⟩
      · exact ⟨1, by norm_num,
          (Tetrs.spawn_clause_iff s.well p 1 (by norm_num) hw1 hw2 hh1).mp h1⟩
      · exact ⟨2, by norm_num,
          (Tetrs.spawn_clause_iff s.well p 2 (by norm_num) hw1 hw2 hh1).mp h2⟩
      · exact ⟨3, by norm_num,
          (Tetrs.spawn_clause_iff s.well p 3 (by norm_num) hw1 hw2 hh1).mp h3⟩
    · rintro ⟨k, hk, hov⟩
      interval_cases k
      · exact Or.inl (Or.inl (Or.inl
          ((Tetrs.spawn_clause_iff s.well p 0 (by norm_num) hw1 hw2 hh1).mpr hov)))
      · exact Or.inl (Or.inl (Or.inr
          ((Tetrs.spawn_clause_iff s.well p 1 (by norm_num) hw1 hw2 hh1).mpr hov)))
      · exact Or.inl (Or.inr
          ((Tetrs.spawn_clause_iff s.well p 2 (by norm_num) hw1 hw2 hh1).mpr hov))
      · exact Or.inr
          ((Tetrs.spawn_clause_iff s.well p 3 (by norm_num) hw1 hw2 hh1).mpr hov)

/-- C8 witness: a 10x6 well with a block at row 4, column 5 makes the T
piece spawn collide (return `true`), and the player is installed. -/
theorem C8_spawn_installs_and_reports_collision_witness :
    ((⟨none, ⟨10, 6, fun i => if i = 4 then 1 <<< 10 else 0⟩⟩ :
      Tetrs.State).spawn Tetrs.Piece.T).1 = true ∧
    ((⟨none, ⟨10, 6, fun i => if i = 4 then 1 <<< 10 else 0⟩⟩ :
      Tetrs.State).spawn Tetrs.Piece.T).2.player =
      some (Tetrs.spawnPlayer ⟨10, 6, fun i => if i = 4 then 1 <<< 10 else 0⟩
        Tetrs.Piece.T) :=
  ⟨(C8_spawn_installs_and_reports_collision
      ⟨none, ⟨10, 6, fun i => if i = 4 then 1 <<< 10 else 0⟩⟩ Tetrs.Piece.T
      (by norm_num) (by norm_num) (by norm_num) (by norm_num)).2.mpr
      ⟨1, by decide⟩,
   (C8_spawn_installs_and_reports_collision
      ⟨none, ⟨10, 6, fun i => if i = 4 then 1 <<< 10 else 0⟩⟩ Tetrs.Piece.T
      (by norm_num) (by norm_num) (by norm_num) (by norm_num)).1.1⟩

/-! ## C9.  Parsing a well from text (`impl FromStr for Well`) -/

namespace Tetrs

/-- Errors when parsing a well from text, from `src/tetrs/src/well.rs`
(`enum ParseWellError`): `Empty`, `BadWalls`, `InWidth` (inconsistent
width), `OutWidth` (too wide), `OutHeight` (too high). -/
inductive ParseWellError where
  | Empty | BadWalls | InWidth | OutWidth | OutHeight
  deriving DecidableEq

/-- `char::is_whitespace` of Rust, by which `str::trim_right` trims:
the Unicode White_Space property (U+0009–U+000D, U+0020, U+0085,
U+00A0, U+1680, U+2000–U+200A, U+2028, U+2029, U+202F, U+205F,
U+3000), listed exhaustively by code point. -/
def isWhiteSpace (c : Char) : Bool :=
  [9, 10, 11, 12, 13, 32, 133, 160, 5760, 8192, 8193, 8194, 8195, 8196,
    8197, 8198, 8199, 8200, 8201, 8202, 8232, 8233, 8239, 8287,
    12288].contains c.toNat

/-- `str::trim_right` on a line: drop trailing Unicode whitespace. -/
def trimRight (l : List Char) : List Char :=
  (l.reverse.dropWhile isWhiteSpace).reverse

/-- The character loop of `from_str`: accumulate the row bitmask
(`row |= bit << w`), bump the width and fail with `OutWidth` once the
width reaches `MAX_WIDTH = 12`. -/
def lineLoop : List Char → Nat → Nat → Except ParseWellError (Nat × Nat)
  | [], w, row => .ok (w, row)
  | c :: cs, w, row =>
    if 12 ≤ w + 1 then .error .OutWidth
    else lineLoop cs (w + 1) (row ||| ((if c = ' ' then 0 else 1) <<< w))

/-- One line of `from_str`: trim, check the `|` walls (the source
compares the first and last byte with `b'|'`, which agrees with the
first/last character since `|` is ASCII), then scan the interior. -/
def parseLine (l : List Char) : Except ParseWellError (Nat × Nat) :=
  let t := trimRight l
  if t.length < 3 then .error .BadWalls
  else if ¬(t.head? = some '|' ∧ t.getLast? = some '|') then .error .BadWalls
  else lineLoop (t.drop 1).dropLast 0 0

/-- The line loop of `from_str`: thread the optional width, the height
and the field through the lines; `Empty` if no line was seen. -/
def parseGo : List (List Char) → Option Nat → Nat → (Nat → Nat) →
    Except ParseWellError Well
  | [], none, _, _ => .error .Empty
  | [], some wd, height, field => .ok ⟨(wd : Int), (height : Int), field⟩
  | l :: ls, wdOpt, height, field =>
    match parseLine l with
    | .error e => .error e
    | .ok (w, row) =>
      match wdOpt with
      | some prev =>
        if prev ≠ w then .error .InWidth
        else if 23 ≤ height + 1 then .error .OutHeight
        else parseGo ls (some w) (height + 1)
          (fun i => if i = height then row else field i)
      | none =>
        if 23 ≤ height + 1 then .error .OutHeight
        else parseGo ls (some w) (height + 1)
          (fun i => if i = height then row else field i)

/-- `impl FromStr for Well`, with the input already split into lines
(`s.lines()`; the line list is empty exactly when the input string is
empty). -/
def Well.fromLines (ls : List (List Char)) : Except ParseWellError Well :=
  parseGo ls none 0 (fun _ => 0)

/-- Spec-side: a line has good walls when, after trimming, it is at
least 3 characters long and begins and ends with a `|`. -/
def goodLine (l : List Char) : Prop :=
  3 ≤ (trimRight l).length ∧ (trimRight l).head? = some '|' ∧
    (trimRight l).getLast? = some '|'

instance (l : List Char) : Decidable (goodLine l) := by
  unfold goodLine; infer_instance

/-- Spec-side: the interior width of a line (trimmed length without the
two walls). -/
def interiorLen (l : List Char) : Nat := (trimRight l).length - 2

theorem lineLoop_ok (cs : List Char) : ∀ w row, w + cs.length < 12 →
    ∃ r, lineLoop cs w row = .ok (w + cs.length, r) := by
  induction cs with
  | nil => intro w row _; exact ⟨row, rfl⟩
  | cons c cs ih =>
    intro w row h
    have hlen : w + (c :: cs).length = w + 1 + cs.length := by
      simp [List.length_cons]; omega
    rw [hlen]
    have hlt : w + 1 + cs.length < 12 := by rw [← hlen]; exact h
    obtain ⟨r, hr⟩ := ih (w + 1) (row ||| ((if c = ' ' then 0 else 1) <<< w)) hlt
    refine ⟨r, ?_⟩
    unfold lineLoop
    rw [if_neg (by omega)]
    exact hr

theorem lineLoop_overflow (cs : List Char) : ∀ w row, cs ≠ [] →
    12 ≤ w + cs.length → lineLoop cs w row = .error .OutWidth := by
  induction cs with
  | nil => intro w row hne _; exact absurd rfl hne
  | cons c cs ih =>
    intro w row _ h
    unfold lineLoop
    by_cases h1 : 12 ≤ w + 1
    · rw [if_pos h1]
    · rw [if_neg h1]
      rcases cs with _ | ⟨c2, cs2⟩
      · exfalso
        simp [List.length_cons] at h
        omega
      · apply ih _ _ (by simp)
        simp [List.length_cons] at h ⊢
        omega

theorem lineLoop_cases (cs : List Char) : ∀ w row,
    (∃ pr, lineLoop cs w row = .ok pr) ∨
      lineLoop cs w row = .error .OutWidth := by
  induction cs with
  | nil => intro w row; exact Or.inl ⟨(w, row), rfl⟩
  | cons c cs ih =>
    intro w row
    unfold lineLoop
    by_cases h1 : 12 ≤ w + 1
    · rw [if_pos h1]; exact Or.inr rfl
    · rw [if_neg h1]; exact ih _ _

theorem interior_length (l : List Char) :
    ((trimRight l).drop 1).dropLast.length = interiorLen l := by
  simp only [interiorLen, List.length_dropLast, List.length_drop]
  omega

theorem parseLine_badwalls (l : List Char) :
    parseLine l = .error .BadWalls ↔ ¬ goodLine l := by
  unfold parseLine goodLine
  by_cases h1 : (trimRight l).length < 3
  · rw [if_pos h1]
    simp only [true_iff]
    intro hg
    omega
  · rw [if_neg h1]
    by_cases h2 : (trimRight l).head? = some '|' ∧ (trimRight l).getLast? = some '|'
    · rw [if_neg (by simpa using h2)]
      constructor
      · intro hbw
        rcases lineLoop_cases ((trimRight l).drop 1).dropLast 0 0 with ⟨pr, hok⟩ | hov
        · rw [hok] at hbw; cases hbw
        · rw [hov] at hbw; cases hbw
      · intro hng
        exact absurd ⟨by omega, h2.1, h2.2⟩ hng
    · rw [if_pos (by simpa using h2)]
      constructor
      · intro _
        intro hg
        exact h2 ⟨hg.2.1, hg.2.2⟩
      · intro _; rfl

theorem parseLine_outwidth (l : List Char) :
    parseLine l = .error .OutWidth ↔ goodLine l ∧ 12 ≤ interiorLen l := by
  unfold parseLine
  by_cases h1 : (trimRight l).length < 3
  · rw [if_pos h1]
    constructor
    · intro h; cases h
    · rintro ⟨hg, _⟩
      exact absurd hg.1 (by omega)
  · rw [if_neg h1]
    by_cases h2 : (trimRight l).head? = some '|' ∧ (trimRight l).getLast? = some '|'
    · rw [if_neg (by simpa using h2)]
      constructor
      · intro hov
        refine ⟨⟨by omega, h2.1, h2.2⟩, ?_⟩
        by_contra hlt
        obtain ⟨r, hr⟩ := lineLoop_ok ((trimRight l).drop 1).dropLast 0 0
          (by rw [interior_length]; omega)
        rw [hr] at hov; cases hov
      · rintro ⟨_, hge⟩
        apply lineLoop_overflow
        · intro hnil
          have := interior_length l
          rw [hnil] at this
          simp at this
          omega
        · rw [interior_length]; omega
    · rw [if_pos (by simpa using h2)]
      constructor
      · intro h; cases h
      · rintro ⟨hg, _⟩
        exact absurd ⟨hg.2.1, hg.2.2⟩ h2

theorem parseLine_ok_props (l : List Char) (w row : Nat)
    (h : parseLine l = .ok (w, row)) :
    goodLine l ∧ w = interiorLen l ∧ interiorLen l < 12 := by
  unfold parseLine at h
  by_cases h1 : (trimRight l).length < 3
  · rw [if_pos h1] at h; cases h
  · rw [if_neg h1] at h
    by_cases h2 : (trimRight l).head? = some '|' ∧ (trimRight l).getLast? = some '|'
    · rw [if_neg (by simpa using h2)] at h
      have hg : goodLine l := ⟨by omega, h2.1, h2.2⟩
      by_cases hlt : interiorLen l < 12
      · obtain ⟨r, hr⟩ := lineLoop_ok ((trimRight l).drop 1).dropLast 0 0
          (by rw [interior_length]; omega)
        rw [hr] at h
        have hw : w = 0 + ((trimRight l).drop 1).dropLast.length := by
          cases h; rfl
        rw [interior_length] at hw
        exact ⟨hg, by omega, hlt⟩
      · exfalso
        rw [lineLoop_overflow _ _ _ ?hne ?hge] at h
        · cases h
        case hne =>
          intro hnil
          have := interior_length l
          rw [hnil] at this
          simp at this
          omega
        case hge => rw [interior_length]; omega
    · rw [if_pos (by simpa using h2)] at h; cases h

theorem parseLine_ok_exists (l : List Char) (hg : goodLine l)
    (hlt : interiorLen l < 12) :
    ∃ row, parseLine l = .ok (interiorLen l, row) := by
  unfold parseLine
  rw [if_neg (by have := hg.1; omega), if_neg (by simpa using ⟨hg.2.1, hg.2.2⟩)]
  obtain ⟨r, hr⟩ := lineLoop_ok ((trimRight l).drop 1).dropLast 0 0
    (by rw [interior_length]; omega)
  refine ⟨r, ?_⟩
  rw [hr, interior_length]
  rw [Nat.zero_add]

theorem parseLine_error_kinds (l : List Char) (e : ParseWellError)
    (h : parseLine l = .error e) :
    e = .BadWalls ∨ e = .OutWidth := by
  unfold parseLine at h
  by_cases h1 : (trimRight l).length < 3
  · rw [if_pos h1] at h; cases h; exact Or.inl rfl
  · rw [if_neg h1] at h
    by_cases h2 : (trimRight l).head? = some '|' ∧ (trimRight l).getLast? = some '|'
    · rw [if_neg (by simpa using h2)] at h
      rcases lineLoop_cases ((trimRight l).drop 1).dropLast 0 0 with ⟨pr, hok⟩ | hov
      · rw [hok] at h; cases h
      · rw [hov] at h; cases h; exact Or.inr rfl
    · rw [if_pos (by simpa using h2)] at h; cases h; exact Or.inl rfl

end Tetrs

namespace Tetrs

/-- Whether a parse result is a success. -/
def isOk : Except ParseWellError Well → Bool
  | .ok _ => true
  | .error _ => false

/-- The error kind of a parse result, if any. -/
def errKind : Except ParseWellError Well → Option ParseWellError
  | .ok _ => none
  | .error e => some e

/-- Unfolding equation for one step of the parser's line loop. -/
theorem parseGo_cons_eq (l : List Char) (ls : List (List Char))
    (wdOpt : Option Nat) (h : Nat) (f : Nat → Nat) :
    parseGo (l :: ls) wdOpt h f =
      match parseLine l with
      | .error e => .error e
      | .ok (w, row) =>
        match wdOpt with
        | some prev =>
          if prev ≠ w then .error .InWidth
          else if 23 ≤ h + 1 then .error .OutHeight
          else parseGo ls (some w) (h + 1) (fun i => if i = h then row else f i)
        | none =>
          if 23 ≤ h + 1 then .error .OutHeight
          else parseGo ls (some w) (h + 1)
            (fun i => if i = h then row else f i) := rfl

/-- Case analysis for one step of the parser's line loop. -/
theorem parseGo_cons (l : List Char) (ls : List (List Char))
    (wdOpt : Option Nat) (h : Nat) (f : Nat → Nat) :
    (∃ e, parseLine l = .error e ∧ parseGo (l :: ls) wdOpt h f = .error e) ∨
    (∃ w row prev, parseLine l = .ok (w, row) ∧ wdOpt = some prev ∧ prev ≠ w ∧
      parseGo (l :: ls) wdOpt h f = .error .InWidth) ∨
    (∃ w row, parseLine l = .ok (w, row) ∧
      (∀ prev, wdOpt = some prev → prev = w) ∧ 23 ≤ h + 1 ∧
      parseGo (l :: ls) wdOpt h f = .error .OutHeight) ∨
    (∃ w row, parseLine l = .ok (w, row) ∧
      (∀ prev, wdOpt = some prev → prev = w) ∧ h + 1 < 23 ∧
      parseGo (l :: ls) wdOpt h f =
        parseGo ls (some w) (h + 1) (fun i => if i = h then row else f i)) := by
  rw [parseGo_cons_eq]
  cases hpl : parseLine l with
  | error e =>
    dsimp only
    exact Or.inl ⟨e, rfl, rfl⟩
  | ok pr =>
    obtain ⟨w, row⟩ := pr
    cases wdOpt with
    | some prev =>
      dsimp only
      by_cases hne : prev ≠ w
      · rw [if_pos hne]
        exact Or.inr (Or.inl ⟨w, row, prev, rfl, rfl, hne, rfl⟩)
      · rw [if_neg hne]
        have hpw : ∀ q, some prev = some q → q = w := by
          intro q hq
          injection hq with h2
          omega
        by_cases hh : 23 ≤ h + 1
        · rw [if_pos hh]
          exact Or.inr (Or.inr (Or.inl ⟨w, row, rfl, hpw, hh, rfl⟩))
        · rw [if_neg hh]
          exact Or.inr (Or.inr (Or.inr ⟨w, row, rfl, hpw, by omega, rfl⟩))
    | none =>
      dsimp only
      have hpw : ∀ q, (none : Option Nat) = some q → q = w := by
        intro q hq
        cases hq
      by_cases hh : 23 ≤ h + 1
      · rw [if_pos hh]
        exact Or.inr (Or.inr (Or.inl ⟨w, row, rfl, hpw, hh, rfl⟩))
      · rw [if_neg hh]
        exact Or.inr (Or.inr (Or.inr ⟨w, row, rfl, hpw, by omega, rfl⟩))

theorem parseGo_empty_iff (ls : List (List Char)) :
    ∀ (wdOpt : Option Nat) (h : Nat) (f : Nat → Nat),
      parseGo ls wdOpt h f = .error .Empty ↔ (ls = [] ∧ wdOpt = none) := by
  induction ls with
  | nil =>
    intro wdOpt h f
    cases wdOpt <;> simp [parseGo]
  | cons l ls ih =>
    intro wdOpt h f
    constructor
    · intro hp
      exfalso
      rcases parseGo_cons l ls wdOpt h f with
        ⟨e, hpl, hres⟩ | ⟨w, row, prev, _, _, _, hres⟩ |
        ⟨w, row, _, _, _, hres⟩ | ⟨w, row, _, _, _, hres⟩
      · rw [hres] at hp
        cases hp
        rcases parseLine_error_kinds l _ hpl with h1 | h1 <;> cases h1
      · rw [hres] at hp; cases hp
      · rw [hres] at hp; cases hp
      · rw [hres] at hp
        have := ((ih _ _ _).mp hp).2
        cases this
    · rintro ⟨hnil, _⟩
      cases hnil

theorem parseGo_badwalls (ls : List (List Char)) :
    ∀ (wdOpt : Option Nat) (h : Nat) (f : Nat → Nat),
      parseGo ls wdOpt h f = .error .BadWalls → ∃ l ∈ ls, ¬ goodLine l := by
  induction ls with
  | nil =>
    intro wdOpt h f hp
    cases wdOpt <;> simp [parseGo] at hp
  | cons l ls ih =>
    intro wdOpt h f hp
    rcases parseGo_cons l ls wdOpt h f with
      ⟨e, hpl, hres⟩ | ⟨w, row, prev, _, _, _, hres⟩ |
      ⟨w, row, _, _, _, hres⟩ | ⟨w, row, _, _, _, hres⟩
    · rw [hres] at hp
      cases hp
      exact ⟨l, List.mem_cons_self l ls, (parseLine_badwalls l).mp hpl⟩
    · rw [hres] at hp; cases hp
    · rw [hres] at hp; cases hp
    · rw [hres] at hp
      obtain ⟨l2, hm, hbad⟩ := ih _ _ _ hp
      exact ⟨l2, List.mem_cons_of_mem l hm, hbad⟩

theorem parseGo_outwidth (ls : List (List Char)) :
    ∀ (wdOpt : Option Nat) (h : Nat) (f : Nat → Nat),
      parseGo ls wdOpt h f = .error .OutWidth →
        ∃ l ∈ ls, 12 ≤ interiorLen l := by
  induction ls with
  | nil =>
    intro wdOpt h f hp
    cases wdOpt <;> simp [parseGo] at hp
  | cons l ls ih =>
    intro wdOpt h f hp
    rcases parseGo_cons l ls wdOpt h f with
      ⟨e, hpl, hres⟩ | ⟨w, row, prev, _, _, _, hres⟩ |
      ⟨w, row, _, _, _, hres⟩ | ⟨w, row, _, _, _, hres⟩
    · rw [hres] at hp
      cases hp
      exact ⟨l, List.mem_cons_self l ls, ((parseLine_outwidth l).mp hpl).2⟩
    · rw [hres] at hp; cases hp
    · rw [hres] at hp; cases hp
    · rw [hres] at hp
      obtain ⟨l2, hm, hwide⟩ := ih _ _ _ hp
      exact ⟨l2, List.mem_cons_of_mem l hm, hwide⟩

theorem parseGo_outheight (ls : List (List Char)) :
    ∀ (wdOpt : Option Nat) (h : Nat) (f : Nat → Nat),
      parseGo ls wdOpt h f = .error .OutHeight → 23 ≤ h + ls.length := by
  induction ls with
  | nil =>
    intro wdOpt h f hp
    cases wdOpt <;> simp [parseGo] at hp
  | cons l ls ih =>
    intro wdOpt h f hp
    rcases parseGo_cons l ls wdOpt h f with
      ⟨e, hpl, hres⟩ | ⟨w, row, prev, _, _, _, hres⟩ |
      ⟨w, row, _, _, hh, hres⟩ | ⟨w, row, _, _, _, hres⟩
    · rw [hres] at hp
      cases hp
      rcases parseLine_error_kinds l _ hpl with h1 | h1 <;> cases h1
    · rw [hres] at hp; cases hp
    · simp only [List.length_cons]
      omega
    · rw [hres] at hp
      have := ih _ _ _ hp
      simp only [List.length_cons]
      omega

theorem parseGo_inwidth_some (ls : List (List Char)) :
    ∀ (wd : Nat) (h : Nat) (f : Nat → Nat),
      parseGo ls (some wd) h f = .error .InWidth →
        ∃ l ∈ ls, goodLine l ∧ interiorLen l ≠ wd := by
  induction ls with
  | nil =>
    intro wd h f hp
    simp [parseGo] at hp
  | cons l ls ih =>
    intro wd h f hp
    rcases parseGo_cons l ls (some wd) h f with
      ⟨e, hpl, hres⟩ | ⟨w, row, prev, hpl, hprev, hne, hres⟩ |
      ⟨w, row, _, _, _, hres⟩ | ⟨w, row, hpl, hmatch, _, hres⟩
    · rw [hres] at hp
      cases hp
      rcases parseLine_error_kinds l _ hpl with h1 | h1 <;> cases h1
    · cases hprev
      obtain ⟨hg, hw, _⟩ := parseLine_ok_props l w row hpl
      exact ⟨l, List.mem_cons_self l ls, hg, by omega⟩
    · rw [hres] at hp; cases hp
    · rw [hres] at hp
      have hwd : wd = w := hmatch wd rfl
      obtain ⟨l2, hm, hg2, hne2⟩ := ih _ _ _ hp
      exact ⟨l2, List.mem_cons_of_mem l hm, hg2, by omega⟩

theorem parseGo_inwidth_none (ls : List (List Char)) :
    ∀ (h : Nat) (f : Nat → Nat),
      parseGo ls none h f = .error .InWidth →
        ∃ l1 ∈ ls, ∃ l2 ∈ ls, goodLine l1 ∧ goodLine l2 ∧
          interiorLen l1 ≠ interiorLen l2 := by
  cases ls with
  | nil =>
    intro h f hp
    simp [parseGo] at hp
  | cons l ls =>
    intro h f hp
    rcases parseGo_cons l ls none h f with
      ⟨e, hpl, hres⟩ | ⟨w, row, prev, _, hprev, _, _⟩ |
      ⟨w, row, _, _, _, hres⟩ | ⟨w, row, hpl, _, _, hres⟩
    · rw [hres] at hp
      cases hp
      rcases parseLine_error_kinds l _ hpl with h1 | h1 <;> cases h1
    · cases hprev
    · rw [hres] at hp; cases hp
    · rw [hres] at hp
      obtain ⟨hg, hw, _⟩ := parseLine_ok_props l w row hpl
      obtain ⟨l2, hm, hg2, hne2⟩ := parseGo_inwidth_some ls w _ _ hp
      exact ⟨l, List.mem_cons_self l ls, l2, List.mem_cons_of_mem l hm, hg, hg2,
        by omega⟩

theorem parseGo_ok_some (ls : List (List Char)) :
    ∀ (wd : Nat) (h : Nat) (f : Nat → Nat),
      (∀ l ∈ ls, goodLine l ∧ interiorLen l = wd ∧ interiorLen l < 12) →
      h + ls.length < 23 →
      isOk (parseGo ls (some wd) h f) = true := by
  induction ls with
  | nil =>
    intro wd h f _ _
    rfl
  | cons l ls ih =>
    intro wd h f hall hlen
    have hl := hall l (List.mem_cons_self l ls)
    obtain ⟨row, hpl⟩ := parseLine_ok_exists l hl.1 hl.2.2
    have hstep : parseGo (l :: ls) (some wd) h f =
        parseGo ls (some (interiorLen l)) (h + 1)
          (fun i => if i = h then row else f i) := by
      rw [parseGo_cons_eq, hpl]
      dsimp only
      simp only [List.length_cons] at hlen
      rw [if_neg (by omega : ¬ wd ≠ interiorLen l), if_neg (by omega)]
    rw [hstep]
    have : interiorLen l = wd := hl.2.1
    rw [this]
    apply ih
    · intro l2 hm
      exact hall l2 (List.mem_cons_of_mem l hm)
    · simp only [List.length_cons] at hlen
      omega

end Tetrs

/-- C9 counterexample: a single line whose interior width is exactly
`MAX_WIDTH = 12` does not exceed the maximum well width, and has good
walls, consistent width and a legal row count, so by the claim it
should parse; but the parser raises `OutWidth` as soon as the running
width reaches 12 (`if w >= MAX_WIDTH`), an off-by-one against the
claim (the same pattern caps the row count at 22, not 23). -/
theorem C9_counterexample :
    Tetrs.errKind
        (Tetrs.Well.fromLines ['|' :: (List.replicate 12 'x' ++ ['|'])]) =
      some .OutWidth ∧
    Tetrs.goodLine ('|' :: (List.replicate 12 'x' ++ ['|'])) ∧
    Tetrs.interiorLen ('|' :: (List.replicate 12 'x' ++ ['|'])) = 12 ∧
    ¬ 12 > Tetrs.MAX_WIDTH := by
  refine ⟨?_, ?_, ?_, ?_⟩ <;> decide

/-- C9 (amended): parsing a well from the text format never panics (the
embedded parser is total) and fails only with the typed error kinds:
`Empty` exactly for empty input; `BadWalls` only when some trimmed line
is shorter than 3 characters or does not both begin and end with `|`;
`InWidth` only when two well-walled rows have differing interior
widths; `OutWidth` only when a row's interior width is at least
`MAX_WIDTH = 12` (so only widths up to 11 parse); `OutHeight` only when
the input has at least `MAX_HEIGHT = 23` rows (so only up to 22 rows
parse); and every input with none of these conditions parses
successfully. -/
theorem C9_parse_error_characterization (ls : List (List Char)) :
    (Tetrs.Well.fromLines ls = .error .Empty ↔ ls = []) ∧
    (Tetrs.Well.fromLines ls = .error .BadWalls →
      ∃ l ∈ ls, ¬ Tetrs.goodLine l) ∧
    (Tetrs.Well.fromLines ls = .error .InWidth →
      ∃ l1 ∈ ls, ∃ l2 ∈ ls, Tetrs.goodLine l1 ∧ Tetrs.goodLine l2 ∧
        Tetrs.interiorLen l1 ≠ Tetrs.interiorLen l2) ∧
    (Tetrs.Well.fromLines ls = .error .OutWidth →
      ∃ l ∈ ls, 12 ≤ Tetrs.interiorLen l) ∧
    (Tetrs.Well.fromLines ls = .error .OutHeight → 23 ≤ ls.length) ∧
    (ls ≠ [] →
      (∀ l ∈ ls, Tetrs.goodLine l ∧ Tetrs.interiorLen l < 12) →
      (∀ l1 ∈ ls, ∀ l2 ∈ ls, Tetrs.interiorLen l1 = Tetrs.interiorLen l2) →
      ls.length < 23 →
      Tetrs.isOk (Tetrs.Well.fromLines ls) = true) := by
  refine ⟨?_, ?_, ?_, ?_, ?_, ?_⟩
  · rw [Tetrs.Well.fromLines, Tetrs.parseGo_empty_iff]
    simp
  · exact Tetrs.parseGo_badwalls ls none 0 _
  · exact Tetrs.parseGo_inwidth_none ls 0 _
  · exact Tetrs.parseGo_outwidth ls none 0 _
  · intro hp
    have := Tetrs.parseGo_outheight ls none 0 _ hp
    omega
  · intro hne hall hwidths hlen
    cases ls with
    | nil => exact absurd rfl hne
    | cons l ls2 =>
      have hl := hall l (List.mem_cons_self l ls2)
      obtain ⟨row, hpl⟩ := Tetrs.parseLine_ok_exists l hl.1 hl.2
      have hstep : Tetrs.Well.fromLines (l :: ls2) =
          Tetrs.parseGo ls2 (some (Tetrs.interiorLen l)) 1
            (fun i => if i = 0 then row else 0) := by
        rw [Tetrs.Well.fromLines, Tetrs.parseGo_cons_eq, hpl]
        dsimp only
        rw [if_neg (by simp at hlen; omega)]
      rw [hstep]
      apply Tetrs.parseGo_ok_some
      · intro l2 hm
        have h2 := hall l2 (List.mem_cons_of_mem l hm)
        exact ⟨h2.1,
          hwidths l2 (List.mem_cons_of_mem l hm) l (List.mem_cons_self l ls2),
          h2.2⟩
      · simp only [List.length_cons] at hlen
        omega

/-- C9 witness: a two-row 2-wide fixture parses successfully. -/
theorem C9_parse_error_characterization_witness :
    Tetrs.isOk (Tetrs.Well.fromLines
      [['|', ' ', 'x', '|'], ['|', 'x', ' ', '|']]) = true :=
  (C9_parse_error_characterization
      [['|', ' ', 'x', '|'], ['|', 'x', ' ', '|']]).2.2.2.2.2
    (by decide) (by decide) (by decide) (by decide)

/-! ## Core crate bot (`src/core/src/bot.rs`) and its well -/

namespace Core

/-- Modelled from the spec: `Rot::from` for the core crate (its
`rot.rs` is not in `src/`; the spec's rotation is the cyclic group of
four states and the tetrs crate's `From<u8>` is `val & 3`). -/
def rotFrom (n : Nat) : Tetrs.Rot :=
  match n % 4 with
  | 0 => Tetrs.Rot.Zero
  | 1 => Tetrs.Rot.Right
  | 2 => Tetrs.Rot.Two
  | _ => Tetrs.Rot.Left

/-- Modelled from the spec: the core crate's piece mesh
(`piece.mesh().data[rot]`, its `piece.rs` is not in `src/`): the same
static sprite table as the tetrs crate (`pix` bit `c` = column `c` from
the left), which reproduces the core crate's own `etch`/`hit_test`
fixtures. -/
def mesh (p : Tetrs.Piece) (r : Tetrs.Rot) : Nat → Nat := Tetrs.pixData p r

/-- `core::Well::line_mask`: the low `width` bits
(`(1 << width) - 1`). -/
def Well.lineMask (w : Well) : Nat := (1 <<< w.width.toNat) - 1

/-- The rendered row of `core::Well::test`/`etch` (`cg_line`): shift
the mesh row left by `x` (right for negative `x`), truncated to 16
bits. -/
def renderRow (pix : Nat) (x : Int) : Nat :=
  if x < 0 then pix >>> (-x).toNat else (pix <<< x.toNat) % 65536

/-- The shifted line mask of `core::Well::test` (for clipping the
walls): the well mask shifted opposite to the piece offset, truncated
to 16 bits. -/
def shiftedMask (w : Well) (x : Int) : Nat :=
  if x < 0 then (w.lineMask <<< (-x).toNat) % 65536 else w.lineMask >>> x.toNat

/-- The row loop of `core::Well::test`. -/
def Well.testLoop (w : Well) (meshRows : Nat → Nat) (lm : Nat)
    (pt : Tetrs.Point) : List Nat → Bool
  | [] => false
  | y :: ys =>
    if meshRows y &&& Tetrs.compl16 lm ≠ 0 then true
    else if pt.y - y < 0 then
      (if meshRows y ≠ 0 then true else w.testLoop meshRows lm pt ys)
    else if pt.y - y < w.height then
      (if renderRow (meshRows y) pt.x &&& w.field (pt.y - y).toNat ≠ 0 then true
        else w.testLoop meshRows lm pt ys)
    else w.testLoop meshRows lm pt ys

/-- `core::Well::test`: hit test of the player against the field
(`true` = collides).  Note the early reject is `x < -4` (strict),
unlike the tetrs crate's `x <= -4`. -/
def Well.test (w : Well) (p : Tetrs.Player) : Bool :=
  if p.pt.x < -4 ∨ w.width ≤ p.pt.x ∨ p.pt.y < 0 then true
  else if w.height + 4 ≤ p.pt.y then false
  else w.testLoop (mesh p.piece p.rot) (shiftedMask w p.pt.x) p.pt [0, 1, 2, 3]

/-- One row of `core::Well::etch`. -/
def Well.etchRow (w : Well) (meshRows : Nat → Nat) (pt : Tetrs.Point)
    (y : Nat) : Well :=
  if 0 ≤ pt.y - y ∧ pt.y - y < w.height then
    ⟨w.width, w.height, fun i =>
      if i = (pt.y - y).toNat then w.field i ||| renderRow (meshRows y) pt.x
      else w.field i⟩
  else w

/-- `core::Well::etch`: OR the rendered mesh rows into the field,
clipped to `[0, height)`. -/
def Well.etch (w : Well) (p : Tetrs.Player) : Well :=
  [0, 1, 2, 3].foldl (fun acc y => acc.etchRow (mesh p.piece p.rot) p.pt y) w

/-- The evaluation weights of `src/core/src/bot.rs` (`struct PlayW`),
`f64` factors embedded as rationals. -/
structure PlayW where
  agg_height_f : ℚ
  complete_lines_f : ℚ
  holes_f : ℚ
  bumpiness_f : ℚ
  stacking_f : ℚ

/-- `PlayW::new`, the tuned constants. -/
def PlayW.new : PlayW :=
  ⟨-510066/1000000, 760666/1000000, -35663/100000, -184483/1000000, -1/2⟩

/-- `PlayW::crunch`: the feature tuple `(height_sum, lines, holes_sum,
bumpiness, stacks_sum)` from the same single bottom-to-top scan as the
tetrs crate's crunch (shared accumulator), without the flood fill. -/
def Well.crunch (w : Well) : Int × Int × Int × Int × Int :=
  let width := w.width.toNat
  let st0 : Tetrs.CrunchSt := ⟨fun _ => 0, fun _ => 0, fun _ => 0, 0, 0⟩
  let st := (List.range w.height.toNat).foldl
    (fun acc r => Tetrs.crunchRow width w.lineMask acc (w.field r)) st0
  let cols := List.range width
  let heightSum := cols.foldl (fun a c => a + st.heights c) 0
  let holesSum := cols.foldl (fun a c => a + st.holes c) 0
  let stacksSum := cols.foldl (fun a c => a + st.stackCnt c) 0
  let bumpiness := (List.range (width - 1)).foldl
    (fun a c => a + |st.heights c - st.heights (c + 1)|) 0
  (heightSum, st.lines, holesSum, bumpiness, stacksSum)

/-- `PlayW::eval`: the weighted feature sum (no stack-out check in this
variant). -/
def PlayW.eval (wts : PlayW) (w : Well) : ℚ :=
  let c := w.crunch
  wts.agg_height_f * (c.1 : ℚ) + wts.complete_lines_f * (c.2.1 : ℚ) +
    wts.holes_f * (c.2.2.1 : ℚ) + wts.bumpiness_f * (c.2.2.2.1 : ℚ) +
    wts.stacking_f * (c.2.2.2.2 : ℚ)

/-- The drop loop of `PlayI::best`
(`while !well.test(&player) { player.pt.y -= 1 }`), with fuel. -/
def dropDown : Nat → Well → Tetrs.Player → Tetrs.Player
  | 0, _, p => p
  | fuel + 1, w, p =>
    if w.test p then p
    else dropDown fuel w ⟨p.piece, p.rot, ⟨p.pt.x, p.pt.y - 1⟩⟩

/-- The half-open integer range `lo..hi`. -/
def intRange (lo hi : Int) : List Int :=
  (List.range (hi - lo).toNat).map (fun i => lo + i)

/-- `PlayI::best` of `src/core/src/bot.rs`: brute force over
`for rot in 0..3` (three of the four rotation states) and
`for x in -3..width`; candidates legal at the spawn row `y = height`
are dropped to rest, etched into a clone and evaluated; the best
strictly-improving score is kept (ties keep the first in scan order).
Returns `(best_x, best_rot, best_score)`. -/
def best (wts : PlayW) (w : Well) (piece : Tetrs.Piece) :
    Int × Tetrs.Rot × WithBot ℚ :=
  (List.range 3).foldl (fun acc rot =>
    (intRange (-3) w.width).foldl (fun acc2 x =>
      let rotv := rotFrom rot
      let player : Tetrs.Player := ⟨piece, rotv, ⟨x, w.height⟩⟩
      if w.test player then acc2
      else
        let rest := dropDown 64 w player
        let placed : Tetrs.Player := ⟨piece, rotv, ⟨x, rest.pt.y + 1⟩⟩
        let score : WithBot ℚ := ((wts.eval (w.etch placed) : ℚ) : WithBot ℚ)
        if acc2.2.2 < score then (x, rotv, score) else acc2)
      acc)
    (0, Tetrs.Rot.Zero, (⊥ : WithBot ℚ))

end Core

unseal Rat.add Rat.mul Rat.inv Rat.sub in
/-- C3: the exhaustive grid search `PlayI::best` iterates
`for rot in 0..3`, i.e. only the rotation states Zero, One and Two,
never Three.  On the 4x6 well with bottom row `0b1001` and the J piece,
the rotation-Three placement at `x = 0` is legal at the spawn row,
drops to rest at `y = 2`, and its evaluation strictly exceeds the score
returned by the code, so the returned placement does not attain the
maximum over all four rotation states as the claim states. -/
theorem C3_best_misses_rotation_three :
    (Core.Well.test ⟨4, 6, fun i => if i = 0 then 9 else 0⟩
        ⟨Tetrs.Piece.J, Tetrs.Rot.Left, ⟨0, 6⟩⟩ = false) ∧
    (Core.dropDown 64 ⟨4, 6, fun i => if i = 0 then 9 else 0⟩
        ⟨Tetrs.Piece.J, Tetrs.Rot.Left, ⟨0, 6⟩⟩ =
      ⟨Tetrs.Piece.J, Tetrs.Rot.Left, ⟨0, 1⟩⟩) ∧
    ((Core.best Core.PlayW.new ⟨4, 6, fun i => if i = 0 then 9 else 0⟩
        Tetrs.Piece.J).2.2 <
      ((Core.PlayW.eval Core.PlayW.new
          ((⟨4, 6, fun i => if i = 0 then 9 else 0⟩ : Core.Well).etch
            ⟨Tetrs.Piece.J, Tetrs.Rot.Left, ⟨0, 2⟩⟩) : ℚ) : WithBot ℚ)) := by
  refine ⟨?_, ?_, ?_⟩ <;> (set_option maxRecDepth 100000 in decide)

/-! ## C6.  The depth-first search `PlayI::play` on a colliding start -/

namespace Tetrs

/-- The wall-kick offset row for a clockwise rotation, from
`src/tetrs/src/srs.rs` (`srs_data_cw`: the I piece uses `SRS_DATA_I`,
every other piece `SRS_DATA_JLSTZ`; the row is selected by the rotation
state the player is rotating *from*). -/
def srsDataCw (p : Piece) (r : Rot) : List Point :=
  if p = Piece.I then
    match r with
    | Rot.Zero => [⟨0, 0⟩, ⟨-2, 0⟩, ⟨1, 0⟩, ⟨-2, -1⟩, ⟨1, 2⟩]
    | Rot.Right => [⟨0, 0⟩, ⟨-1, 0⟩, ⟨2, 0⟩, ⟨-1, 2⟩, ⟨2, -1⟩]
    | Rot.Two => [⟨0, 0⟩, ⟨2, 0⟩, ⟨-1, 0⟩, ⟨2, 1⟩, ⟨-1, -2⟩]
    | Rot.Left => [⟨0, 0⟩, ⟨1, 0⟩, ⟨-2, 0⟩, ⟨1, -2⟩, ⟨-2, 1⟩]
  else
    match r with
    | Rot.Zero => [⟨0, 0⟩, ⟨-1, 0⟩, ⟨-1, 1⟩, ⟨0, -2⟩, ⟨-1, -2⟩]
    | Rot.Right => [⟨0, 0⟩, ⟨1, 0⟩, ⟨1, -1⟩, ⟨0, 2⟩, ⟨1, 2⟩]
    | Rot.Two => [⟨0, 0⟩, ⟨1, 0⟩, ⟨1, 1⟩, ⟨0, -2⟩, ⟨1, -2⟩]
    | Rot.Left => [⟨0, 0⟩, ⟨-1, 0⟩, ⟨-1, -1⟩, ⟨0, 2⟩, ⟨-1, 2⟩]

/-- The wall-kick offset row for a counter-clockwise rotation
(`srs_data_ccw` of `src/tetrs/src/srs.rs`). -/
def srsDataCcw (p : Piece) (r : Rot) : List Point :=
  if p = Piece.I then
    match r with
    | Rot.Zero => [⟨0, 0⟩, ⟨-1, 0⟩, ⟨2, 0⟩, ⟨-1, 2⟩, ⟨2, -1⟩]
    | Rot.Right => [⟨0, 0⟩, ⟨-2, 0⟩, ⟨1, 0⟩, ⟨-2, -1⟩, ⟨1, 2⟩]
    | Rot.Two => [⟨0, 0⟩, ⟨1, 0⟩, ⟨-2, 0⟩, ⟨1, -2⟩, ⟨-2, 1⟩]
    | Rot.Left => [⟨0, 0⟩, ⟨2, 0⟩, ⟨-1, 0⟩, ⟨2, 1⟩, ⟨-1, -2⟩]
  else
    match r with
    | Rot.Zero => [⟨0, 0⟩, ⟨1, 0⟩, ⟨1, 1⟩, ⟨0, -2⟩, ⟨1, -2⟩]
    | Rot.Right => [⟨0, 0⟩, ⟨-1, 0⟩, ⟨-1, -1⟩, ⟨0, 2⟩, ⟨-1, 2⟩]
    | Rot.Two => [⟨0, 0⟩, ⟨-1, 0⟩, ⟨-1, 1⟩, ⟨0, -2⟩, ⟨-1, -2⟩]
    | Rot.Left => [⟨0, 0⟩, ⟨1, 0⟩, ⟨1, -1⟩, ⟨0, 2⟩, ⟨1, 2⟩]

/-- `srs_cw` of `src/tetrs/src/srs.rs`: rotate clockwise and wall-kick;
if no kick offset gives a legal position, the original player is
returned unchanged. -/
def srsCw (w : Well) (p : Player) : Player :=
  match w.wallKick p.rotateCw.sprite (srsDataCw p.piece p.rot) p.rotateCw.pt with
  | some pt => ⟨p.rotateCw.piece, p.rotateCw.rot, pt⟩
  | none => p

/-- `srs_ccw` of `src/tetrs/src/srs.rs`. -/
def srsCcw (w : Well) (p : Player) : Player :=
  match w.wallKick p.rotateCcw.sprite (srsDataCcw p.piece p.rot) p.rotateCcw.pt with
  | some pt => ⟨p.rotateCcw.piece, p.rotateCcw.rot, pt⟩
  | none => p

/-- The player moves of `src/tetrs/src/bot.rs` (`enum Play`). -/
inductive Play where
  | Idle | MoveLeft | MoveRight | RotateCW | RotateCCW | SoftDrop | HardDrop
  deriving DecidableEq

/-- The search result of `src/tetrs/src/bot.rs` (`struct PlayI`), with
the `f64` score embedded in `WithBot ℚ`. -/
structure PlayIR where
  score : WithBot ℚ
  play : List Play
  player : Option Player
  deriving DecidableEq

/-- The visited-array index of `PlayI::play`
(`y * STRIDE + (x + 3) * 4 + rot as u8` with
`STRIDE = (MAX_WIDTH + 3) * 4 = 60`). -/
def visitIdx (p : Player) : Int :=
  p.pt.y * 60 + (p.pt.x + 3) * 4 + rotIdx p.rot

/-- The `visit` closure of `PlayI::play`: returns whether the player's
state was already visited, and the updated flags (the state is marked
in either case). -/
def visit (vis : Int → Bool) (next : Player) : Bool × (Int → Bool) :=
  (vis (visitIdx next), fun i => if i = visitIdx next then true else vis i)

/-- The loop state of `PlayI::play`: the visited flags, the explicit
DFS stack `path` (top of stack first; the source keeps it bottom-first
in a `Vec`), and the best accumulator. -/
structure DfsState where
  visited : Int → Bool
  path : List (Play × Player)
  best : PlayIR

/-- One iteration of the `while let Some(&(play, player)) = path.last()`
loop of `PlayI::play` (an empty path returns the state unchanged; the
`HardDrop` label is `unreachable!` in the source).  In every arm the
stack top's label is first advanced to the next move to try; `Idle`
probes one step down and on collision scores the current placement,
the shift arms probe sideways, and the rotate arms push the wall-kicked
state whenever it is unvisited, legal or not. -/
def stepDfs (wts : Weights) (w : Well) (st : DfsState) : DfsState :=
  match st.path with
  | [] => st
  | (play, player) :: rest =>
    match play with
    | Play.Idle =>
      if (visit st.visited player.moveDown).1 then
        ⟨(visit st.visited player.moveDown).2, (Play.SoftDrop, player) :: rest,
          st.best⟩
      else if testPlayer w player.moveDown = false then
        ⟨(visit st.visited player.moveDown).2,
          (Play.Idle, player.moveDown) :: (Play.SoftDrop, player) :: rest,
          st.best⟩
      else if st.best.score < wts.eval (etchPlayer w player) then
        ⟨(visit st.visited player.moveDown).2, (Play.SoftDrop, player) :: rest,
          ⟨wts.eval (etchPlayer w player),
            (((Play.SoftDrop, player) :: rest).reverse).map Prod.fst,
            some player⟩⟩
      else
        ⟨(visit st.visited player.moveDown).2, (Play.SoftDrop, player) :: rest,
          st.best⟩
    | Play.SoftDrop =>
      if (visit st.visited player.moveLeft).1 = false ∧
          testPlayer w player.moveLeft = false then
        ⟨(visit st.visited player.moveLeft).2,
          (Play.Idle, player.moveLeft) :: (Play.MoveLeft, player) :: rest,
          st.best⟩
      else
        ⟨(visit st.visited player.moveLeft).2, (Play.MoveLeft, player) :: rest,
          st.best⟩
    | Play.MoveLeft =>
      if (visit st.visited player.moveRight).1 = false ∧
          testPlayer w player.moveRight = false then
        ⟨(visit st.visited player.moveRight).2,
          (Play.Idle, player.moveRight) :: (Play.MoveRight, player) :: rest,
          st.best⟩
      else
        ⟨(visit st.visited player.moveRight).2, (Play.MoveRight, player) :: rest,
          st.best⟩
    | Play.MoveRight =>
      if (visit st.visited (srsCw w player)).1 = false then
        ⟨(visit st.visited (srsCw w player)).2,
          (Play.Idle, srsCw w player) :: (Play.RotateCW, player) :: rest,
          st.best⟩
      else
        ⟨(visit st.visited (srsCw w player)).2, (Play.RotateCW, player) :: rest,
          st.best⟩
    | Play.RotateCW =>
      if (visit st.visited (srsCcw w player)).1 = false then
        ⟨(visit st.visited (srsCcw w player)).2,
          (Play.Idle, srsCcw w player) :: (Play.RotateCCW, player) :: rest,
          st.best⟩
      else
        ⟨(visit st.visited (srsCcw w player)).2, (Play.RotateCCW, player) :: rest,
          st.best⟩
    | Play.RotateCCW => ⟨st.visited, rest, st.best⟩
    | _ => st

/-- The `while let` loop of `PlayI::play`, with fuel. -/
def runDfs (wts : Weights) (w : Well) : Nat → DfsState → DfsState
  | 0, st => st
  | fuel + 1, st =>
    if st.path = [] then st else runDfs wts w fuel (stepDfs wts w st)

/-- `PlayI::play` of `src/tetrs/src/bot.rs`: depth-first traversal of
the reachable game states from the given start, with fuel for the
loop; initially only `(Play::Idle, player)` is on the path, nothing is
visited, and the best accumulator is `(NEG_INFINITY, [], None)`. -/
def PlayI.play (fuel : Nat) (wts : Weights) (w : Well) (player : Player) :
    PlayIR :=
  (runDfs wts w fuel ⟨fun _ => false, [(Play.Idle, player)], ⟨⊥, [], none⟩⟩).best

end Tetrs

namespace Tetrs

end Tetrs

